import Mathlib

/-!
Flat media list (`src/control/flat_media_list.c`).

A shallow embedding of the flat-media-list engine of libvlc, followed by the
sorting tables of the Qt video model (`mlvideomodel.cpp`).  Media lists and
media descriptors live in a heap and are named by their position in it; a
`libvlc_media_list_t *` is an `Option Nat` (`none` is the NULL pointer).  Every
function of `flat_media_list.c` is translated statement by statement.  The
mutual recursions `add_item`/`add_media_list` and
`remove_item`/`remove_media_list` are bounded by a fuel that counts the nesting
depth of `add_media_list` (resp. `remove_media_list`) calls.
-/

namespace FlatMediaList

/-! ## Data model -/

/-- Event types used by `flat_media_list.c`. -/
inductive libvlc_event_type_t
  | libvlc_MediaDescriptorSubItemAdded
  | libvlc_MediaListItemAdded
  | libvlc_MediaListItemDeleted
  deriving DecidableEq, Repr

/-- The three event callbacks defined in `flat_media_list.c`. -/
inductive libvlc_callback_t
  | subitems_created
  | sublist_item_added
  | sublist_item_removed
  deriving DecidableEq, Repr

/-- One registered listener: the triple handed to `libvlc_event_attach`. -/
structure libvlc_event_listener_t where
  event_type : libvlc_event_type_t
  pf_callback : libvlc_callback_t
  p_user_data : Option Nat
  deriving DecidableEq, Repr

/-- The fields of `libvlc_media_list_t` that `flat_media_list.c` touches. -/
structure libvlc_media_list_t where
  items : List Nat
  p_flat_mlist : Option Nat
  p_event_manager : List libvlc_event_listener_t
  i_refcount : Nat
  deriving DecidableEq, Repr

/-- The fields of `libvlc_media_descriptor_t` that `flat_media_list.c` touches. -/
structure libvlc_media_descriptor_t where
  p_subitems : Option Nat
  p_event_manager : List libvlc_event_listener_t
  deriving DecidableEq, Repr

/-- The owner of an event manager: a media list or a media descriptor. -/
inductive Emitter
  | of_list (l : Nat)
  | of_md (m : Nat)
  deriving DecidableEq, Repr

/-- The state-changing library calls made by `flat_media_list.c`, as logged. -/
inductive Prim
  | event_attach (em : Emitter) (l : libvlc_event_listener_t)
  | event_detach (em : Emitter) (l : libvlc_event_listener_t)
  | add_media_descriptor (p_mlist : Nat) (p_md : Nat)
  | remove_index (p_mlist : Nat) (index : Int)
  deriving DecidableEq, Repr

/-- The heap: media lists, media descriptors, and the log of library calls
(oldest first). -/
structure State where
  lists : List libvlc_media_list_t
  mds : List libvlc_media_descriptor_t
  trace : List Prim
  deriving DecidableEq, Repr

/-- The ways a run stops without returning. -/
inductive Fault
  | null_deref
  | invalid_index (p_mlist : Nat) (index : Int)
  | out_of_fuel
  deriving DecidableEq, Repr

deriving instance DecidableEq for Except

/-! ## Pointer access -/

/-- Reading through a `libvlc_media_list_t *`: NULL or a dangling pointer faults. -/
def deref_list (s : State) (p : Option Nat) : Except Fault libvlc_media_list_t :=
  match p with
  | none => .error .null_deref
  | some l =>
    match s.lists[l]? with
    | none => .error .null_deref
    | some ml => .ok ml

/-- Reading through a `libvlc_media_descriptor_t *`. -/
def deref_md (s : State) (p_md : Nat) : Except Fault libvlc_media_descriptor_t :=
  match s.mds[p_md]? with
  | none => .error .null_deref
  | some md => .ok md

/-- The item sequence of list `l` (empty when `l` is not allocated). -/
def items_of (s : State) (l : Nat) : List Nat :=
  match s.lists[l]? with
  | none => []
  | some ml => ml.items

/-- The listeners registered on list `l`. -/
def listeners_of (s : State) (l : Nat) : List libvlc_event_listener_t :=
  match s.lists[l]? with
  | none => []
  | some ml => ml.p_event_manager

/-- The listeners registered on media descriptor `m`. -/
def md_listeners_of (s : State) (m : Nat) : List libvlc_event_listener_t :=
  match s.mds[m]? with
  | none => []
  | some md => md.p_event_manager

/-- Remove the first listener equal to `x`, if there is one. -/
def remove_first (x : libvlc_event_listener_t) :
    List libvlc_event_listener_t → List libvlc_event_listener_t
  | [] => []
  | y :: ys => if y = x then ys else y :: remove_first x ys

/-! ## Library calls used by `flat_media_list.c`

`media_list.c` and `event.c` are not part of the sources at hand; the calls
below are modelled from the specification's description of the collaborators. -/

/-- Modelled from the spec: `libvlc_media_list_new` (media_list.c is missing).
A fresh, empty collection with no observers, held once; its `p_flat_mlist` is
absent, as the lazy test `!p_mlist->p_flat_mlist` of
`libvlc_media_list_flat_media_list` presupposes for every new list. -/
def libvlc_media_list_new (s : State) : Nat × State :=
  (s.lists.length,
   { s with lists := s.lists ++
      [{ items := [], p_flat_mlist := none, p_event_manager := [], i_refcount := 1 }] })

/-- Modelled from the spec: `libvlc_media_list_retain` (media_list.c is missing):
one more holder of the collection. -/
def libvlc_media_list_retain (s : State) (p_mlist : Option Nat) : Except Fault State :=
  match p_mlist with
  | none => .error .null_deref
  | some l =>
    match s.lists[l]? with
    | none => .error .null_deref
    | some ml => .ok { s with lists := s.lists.set l { ml with i_refcount := ml.i_refcount + 1 } }

/-- Modelled from the spec: `libvlc_media_list_count` (media_list.c is missing):
the number of items of the ordered collection. -/
def libvlc_media_list_count (s : State) (p_mlist : Option Nat) : Except Fault Nat :=
  match deref_list s p_mlist with
  | .error e => .error e
  | .ok ml => .ok ml.items.length

/-- Modelled from the spec: `libvlc_media_list_item_at_index` (media_list.c is
missing): positional lookup.  An index outside the collection yields no item,
and the caller's next access through that pointer faults. -/
def libvlc_media_list_item_at_index (s : State) (p_mlist : Option Nat) (i : Nat) :
    Except Fault Nat :=
  match deref_list s p_mlist with
  | .error e => .error e
  | .ok ml =>
    match ml.items[i]? with
    | none => .error .null_deref
    | some x => .ok x

/-- Modelled from the spec: `libvlc_media_list_index_of_item` (media_list.c is
missing): the position of the first occurrence of the item (by identity), or
`-1` when it is not in the collection. -/
def libvlc_media_list_index_of_item (s : State) (p_mlist : Option Nat) (p_md : Nat) :
    Except Fault Int :=
  match deref_list s p_mlist with
  | .error e => .error e
  | .ok ml => if p_md ∈ ml.items then .ok (ml.items.indexOf p_md : Nat) else .ok (-1)

/-- Modelled from the spec: `libvlc_media_list_add_media_descriptor`
(media_list.c is missing): append the item to the collection. -/
def libvlc_media_list_add_media_descriptor (s : State) (p_mlist : Option Nat) (p_md : Nat) :
    Except Fault State :=
  match p_mlist with
  | none => .error .null_deref
  | some l =>
    match s.lists[l]? with
    | none => .error .null_deref
    | some ml =>
      .ok { s with lists := s.lists.set l { ml with items := ml.items ++ [p_md] },
                   trace := s.trace ++ [Prim.add_media_descriptor l p_md] }

/-- Modelled from the spec: `libvlc_media_list_remove_index` (media_list.c is
missing): remove the item at a position.  The call does not check the index;
a position outside the collection is an out-of-bounds removal, reported as the
fault `invalid_index`. -/
def libvlc_media_list_remove_index (s : State) (p_mlist : Option Nat) (index : Int) :
    Except Fault State :=
  match p_mlist with
  | none => .error .null_deref
  | some l =>
    match s.lists[l]? with
    | none => .error .null_deref
    | some ml =>
      if 0 ≤ index ∧ index < (ml.items.length : Int) then
        .ok { s with lists := s.lists.set l { ml with items := ml.items.eraseIdx index.toNat },
                     trace := s.trace ++ [Prim.remove_index l index] }
      else .error (.invalid_index l index)

/-- Modelled from the spec: `libvlc_event_attach` on `p_mlist->p_event_manager`
(event.c is missing).  The event manager is an observer list: the listener is
appended, also when an equal one is already registered. -/
def libvlc_event_attach_list (s : State) (p_mlist : Option Nat)
    (x : libvlc_event_listener_t) : Except Fault State :=
  match p_mlist with
  | none => .error .null_deref
  | some l =>
    match s.lists[l]? with
    | none => .error .null_deref
    | some ml =>
      .ok { s with lists := s.lists.set l { ml with p_event_manager := ml.p_event_manager ++ [x] },
                   trace := s.trace ++ [Prim.event_attach (Emitter.of_list l) x] }

/-- Modelled from the spec: `libvlc_event_detach` on `p_mlist->p_event_manager`
(event.c is missing): the first equal listener is removed; nothing happens
when there is none. -/
def libvlc_event_detach_list (s : State) (p_mlist : Option Nat)
    (x : libvlc_event_listener_t) : Except Fault State :=
  match p_mlist with
  | none => .error .null_deref
  | some l =>
    match s.lists[l]? with
    | none => .error .null_deref
    | some ml =>
      .ok { s with lists := s.lists.set l
                      { ml with p_event_manager := remove_first x ml.p_event_manager },
                   trace := s.trace ++ [Prim.event_detach (Emitter.of_list l) x] }

/-- Modelled from the spec: `libvlc_event_attach` on `p_md->p_event_manager`
(event.c is missing). -/
def libvlc_event_attach_md (s : State) (p_md : Nat)
    (x : libvlc_event_listener_t) : Except Fault State :=
  match s.mds[p_md]? with
  | none => .error .null_deref
  | some md =>
    .ok { s with mds := s.mds.set p_md { md with p_event_manager := md.p_event_manager ++ [x] },
                 trace := s.trace ++ [Prim.event_attach (Emitter.of_md p_md) x] }

/-- Modelled from the spec: `libvlc_event_detach` on `p_md->p_event_manager`
(event.c is missing). -/
def libvlc_event_detach_md (s : State) (p_md : Nat)
    (x : libvlc_event_listener_t) : Except Fault State :=
  match s.mds[p_md]? with
  | none => .error .null_deref
  | some md =>
    .ok { s with mds := s.mds.set p_md
                    { md with p_event_manager := remove_first x md.p_event_manager },
                 trace := s.trace ++ [Prim.event_detach (Emitter.of_md p_md) x] }

/-! ## The functions of `flat_media_list.c` -/

/-- The loop `for( i = 0; i < count; i++ )`: `n` iterations are left and the
next index is `i`. -/
def for_loop (body : Nat → State → Except Fault State) :
    Nat → Nat → State → Except Fault State
  | 0, _, s => .ok s
  | n + 1, i, s =>
    match body i s with
    | .error e => .error e
    | .ok s1 => for_loop body n (i + 1) s1

/-- The body of `add_item`, with the callee `add_media_list` as a parameter. -/
def add_item_body (rec_add_media_list : Option Nat → Option Nat → State → Except Fault State)
    (p_mlist : Option Nat) (p_md : Nat) (s : State) : Except Fault State :=
  -- p_mlist->p_flat_mlist
  match deref_list s p_mlist with
  | .error e => .error e
  | .ok ml =>
    match libvlc_media_list_index_of_item s ml.p_flat_mlist p_md with
    | .error e => .error e
    | .ok i =>
      if i < 0 then
        -- p_md->p_subitems
        match deref_md s p_md with
        | .error e => .error e
        | .ok md =>
          match md.p_subitems with
          | some sub => rec_add_media_list ml.p_flat_mlist (some sub) s
          | none =>
            match libvlc_event_attach_md s p_md
                ⟨.libvlc_MediaDescriptorSubItemAdded, .subitems_created, p_mlist⟩ with
            | .error e => .error e
            | .ok s1 =>
              match deref_list s1 p_mlist with
              | .error e => .error e
              | .ok ml1 => libvlc_media_list_add_media_descriptor s1 ml1.p_flat_mlist p_md
      else .ok s

/-- The function `add_media_list( p_mlist, p_submlist )`. -/
def add_media_list : Nat → Option Nat → Option Nat → State → Except Fault State
  | 0, _, _, _ => .error .out_of_fuel
  | fuel + 1, p_mlist, p_submlist, s =>
    match libvlc_media_list_count s p_submlist with
    | .error e => .error e
    | .ok count =>
      match libvlc_event_attach_list s p_submlist
          ⟨.libvlc_MediaListItemAdded, .sublist_item_added, p_mlist⟩ with
      | .error e => .error e
      | .ok s1 =>
        match libvlc_event_attach_list s1 p_submlist
            ⟨.libvlc_MediaListItemDeleted, .sublist_item_removed, p_mlist⟩ with
        | .error e => .error e
        | .ok s2 =>
          for_loop (fun i st =>
            match libvlc_media_list_item_at_index st p_submlist i with
            | .error e => .error e
            | .ok p_md =>
              -- add_item( p_mlist->p_flat_mlist, p_md )
              match deref_list st p_mlist with
              | .error e => .error e
              | .ok ml => add_item_body (add_media_list fuel) ml.p_flat_mlist p_md st)
            count 0 s2

/-- The function `add_item( p_mlist, p_md )`. -/
def add_item (fuel : Nat) (p_mlist : Option Nat) (p_md : Nat) (s : State) :
    Except Fault State :=
  add_item_body (add_media_list fuel) p_mlist p_md s

/-- The body of `remove_item`, with the callee `remove_media_list` as a
parameter.  There is no `else`: the detach, the index lookup and the removal
run for every item. -/
def remove_item_body
    (rec_remove_media_list : Option Nat → Option Nat → State → Except Fault State)
    (p_mlist : Option Nat) (p_md : Nat) (s : State) : Except Fault State :=
  match deref_md s p_md with
  | .error e => .error e
  | .ok md =>
    match (match md.p_subitems with
           | some sub => rec_remove_media_list p_mlist (some sub) s
           | none => Except.ok s) with
    | .error e => .error e
    | .ok s1 =>
      match libvlc_event_detach_md s1 p_md
          ⟨.libvlc_MediaDescriptorSubItemAdded, .subitems_created, p_mlist⟩ with
      | .error e => .error e
      | .ok s2 =>
        -- p_mlist->p_flat_mlist
        match deref_list s2 p_mlist with
        | .error e => .error e
        | .ok ml =>
          match libvlc_media_list_index_of_item s2 ml.p_flat_mlist p_md with
          | .error e => .error e
          | .ok i => libvlc_media_list_remove_index s2 ml.p_flat_mlist i

/-- The function `remove_media_list( p_mlist, p_submlist )`.  The two detaches
go to `p_mlist->p_event_manager`. -/
def remove_media_list : Nat → Option Nat → Option Nat → State → Except Fault State
  | 0, _, _, _ => .error .out_of_fuel
  | fuel + 1, p_mlist, p_submlist, s =>
    match libvlc_media_list_count s p_submlist with
    | .error e => .error e
    | .ok count =>
      match for_loop (fun i st =>
              match libvlc_media_list_item_at_index st p_submlist i with
              | .error e => .error e
              | .ok p_md => remove_item_body (remove_media_list fuel) p_mlist p_md st)
            count 0 s with
      | .error e => .error e
      | .ok s1 =>
        match libvlc_event_detach_list s1 p_mlist
            ⟨.libvlc_MediaListItemAdded, .sublist_item_added, p_mlist⟩ with
        | .error e => .error e
        | .ok s2 =>
          libvlc_event_detach_list s2 p_mlist
            ⟨.libvlc_MediaListItemDeleted, .sublist_item_removed, p_mlist⟩

/-- The function `remove_item( p_mlist, p_md )`. -/
def remove_item (fuel : Nat) (p_mlist : Option Nat) (p_md : Nat) (s : State) :
    Except Fault State :=
  remove_item_body (remove_media_list fuel) p_mlist p_md s

/-- The callback `subitems_created`: `p_user_data` is the registered list,
`p_md` the item carried by the event. -/
def subitems_created (fuel : Nat) (p_user_data : Option Nat) (p_md : Nat) (s : State) :
    Except Fault State :=
  match deref_list s p_user_data with
  | .error e => .error e
  | .ok ml =>
    match remove_item fuel ml.p_flat_mlist p_md s with
    | .error e => .error e
    | .ok s1 =>
      match deref_list s1 p_user_data with
      | .error e => .error e
      | .ok ml1 =>
        match deref_md s1 p_md with
        | .error e => .error e
        | .ok md => add_media_list fuel ml1.p_flat_mlist md.p_subitems s1

/-- The callback `sublist_item_added`. -/
def sublist_item_added (fuel : Nat) (p_user_data : Option Nat) (p_md : Nat) (s : State) :
    Except Fault State :=
  add_item fuel p_user_data p_md s

/-- The callback `sublist_item_removed`. -/
def sublist_item_removed (fuel : Nat) (p_user_data : Option Nat) (p_md : Nat) (s : State) :
    Except Fault State :=
  remove_item fuel p_user_data p_md s

/-- The public function `libvlc_media_list_flat_media_list( p_mlist, p_e )`:
the returned pointer and the new state. -/
def libvlc_media_list_flat_media_list (fuel : Nat) (p_mlist : Option Nat) (s : State) :
    Except Fault (Option Nat × State) :=
  match p_mlist with
  | none => .error .null_deref
  | some l =>
    match s.lists[l]? with
    | none => .error .null_deref
    | some ml =>
      match (match ml.p_flat_mlist with
             | some _ => Except.ok s
             | none =>
               let r := libvlc_media_list_new s
               let s1 : State :=
                 { r.2 with lists := r.2.lists.set l { ml with p_flat_mlist := some r.1 } }
               add_media_list fuel (some r.1) p_mlist s1) with
      | .error e => .error e
      | .ok s2 =>
        match deref_list s2 p_mlist with
        | .error e => .error e
        | .ok ml2 =>
          match libvlc_media_list_retain s2 ml2.p_flat_mlist with
          | .error e => .error e
          | .ok s3 =>
            match deref_list s3 p_mlist with
            | .error e => .error e
            | .ok ml3 => .ok (ml3.p_flat_mlist, s3)

/-! ## The reference walk -/

/-- The leaves below list `p`: an independent recursive walk that descends into
every item's `p_subitems` and keeps the items that have none.  The fuel bounds
the depth of the descent. -/
def leaves : Nat → State → Option Nat → List Nat
  | 0, _, _ => []
  | fuel + 1, s, p =>
    match deref_list s p with
    | Except.error _ => []
    | Except.ok ml =>
      ml.items.flatMap (fun x =>
        match s.mds[x]? with
        | none => []
        | some md =>
          match md.p_subitems with
          | none => [x]
          | some sub => leaves fuel s (some sub))

/-! ## Observations on a state -/

/-- The `p_flat_mlist` field of list `l` (absent when `l` is not allocated). -/
def flat_of (s : State) (l : Nat) : Option Nat :=
  match s.lists[l]? with
  | none => none
  | some ml => ml.p_flat_mlist

/-- The reference count of list `l`. -/
def refcount_of (s : State) (l : Nat) : Nat :=
  match s.lists[l]? with
  | none => 0
  | some ml => ml.i_refcount

/-- The `p_subitems` field of media descriptor `m`. -/
def subitems_of (s : State) (m : Nat) : Option Nat :=
  match s.mds[m]? with
  | none => none
  | some md => md.p_subitems

/-- Item `x` is allocated and has no sub-collection. -/
def is_leaf (s : State) (x : Nat) : Prop :=
  ∃ md, s.mds[x]? = some md ∧ md.p_subitems = none

/-- The number of `libvlc_event_attach` calls on event manager `em` in a log. -/
def attach_count (tr : List Prim) (em : Emitter) : Nat :=
  tr.countP (fun e =>
    match e with
    | Prim.event_attach em1 _ => decide (em1 = em)
    | _ => false)

/-- The number of `libvlc_event_detach` calls on event manager `em` in a log. -/
def detach_count (tr : List Prim) (em : Emitter) : Nat :=
  tr.countP (fun e =>
    match e with
    | Prim.event_detach em1 _ => decide (em1 = em)
    | _ => false)

/-- The listener `add_media_list` attaches for `libvlc_MediaListItemAdded`. -/
def added_listener (p_user_data : Option Nat) : libvlc_event_listener_t :=
  ⟨.libvlc_MediaListItemAdded, .sublist_item_added, p_user_data⟩

/-- The listener `add_media_list` attaches for `libvlc_MediaListItemDeleted`. -/
def removed_listener (p_user_data : Option Nat) : libvlc_event_listener_t :=
  ⟨.libvlc_MediaListItemDeleted, .sublist_item_removed, p_user_data⟩

/-- The listener `add_item` attaches to a leaf item. -/
def discovery_listener (p_user_data : Option Nat) : libvlc_event_listener_t :=
  ⟨.libvlc_MediaDescriptorSubItemAdded, .subitems_created, p_user_data⟩

/-- What the insertion path (`add_item`, `add_media_list`) may change: lists
only grow at the end, by leaves that were not there; observers are only added;
pointers, reference counts and sub-collections stay. -/
structure Grows (s s1 : State) : Prop where
  valid_list : ∀ l : Nat, (s1.lists[l]?).isSome = (s.lists[l]?).isSome
  valid_md : ∀ m : Nat, (s1.mds[m]?).isSome = (s.mds[m]?).isSome
  flat : ∀ l, flat_of s1 l = flat_of s l
  refcount : ∀ l, refcount_of s1 l = refcount_of s l
  subitems : ∀ m, subitems_of s1 m = subitems_of s m
  items_init : ∀ l, items_of s l <+: items_of s1 l
  nodup : ∀ l, (items_of s l).Nodup → (items_of s1 l).Nodup
  new_leaf : ∀ l x, x ∈ items_of s1 l → x ∈ items_of s l ∨ is_leaf s x
  listeners_init : ∀ l, listeners_of s l <+: listeners_of s1 l
  md_listeners_init : ∀ m, md_listeners_of s m <+: md_listeners_of s1 m
  trace_init : s.trace <+: s1.trace
  detach_same : ∀ em, detach_count s1.trace em = detach_count s.trace em

/-- What the removal path (`remove_item`, `remove_media_list`) called with the
list argument `p` may change: items and observers are only removed, and the
only list whose observers are touched is `p` itself. -/
structure Shrinks (p : Option Nat) (s s1 : State) : Prop where
  valid_list : ∀ l : Nat, (s1.lists[l]?).isSome = (s.lists[l]?).isSome
  valid_md : ∀ m : Nat, (s1.mds[m]?).isSome = (s.mds[m]?).isSome
  flat : ∀ l, flat_of s1 l = flat_of s l
  refcount : ∀ l, refcount_of s1 l = refcount_of s l
  subitems : ∀ m, subitems_of s1 m = subitems_of s m
  items_sublist : ∀ l, (items_of s1 l).Sublist (items_of s l)
  listeners_sublist : ∀ l, (listeners_of s1 l).Sublist (listeners_of s l)
  listeners_frame : ∀ l, some l ≠ p → listeners_of s1 l = listeners_of s l
  md_listeners_sublist : ∀ m, (md_listeners_of s1 m).Sublist (md_listeners_of s m)
  trace_init : s.trace <+: s1.trace
  attach_same : ∀ em, attach_count s1.trace em = attach_count s.trace em
  detach_frame : ∀ l, some l ≠ p →
    detach_count s1.trace (Emitter.of_list l) = detach_count s.trace (Emitter.of_list l)

/-! ## Example hierarchies -/

/-- A leaf item without observers. -/
def leaf_md : libvlc_media_descriptor_t := { p_subitems := none, p_event_manager := [] }

/-- A source list with the given items, no flat list and no observers. -/
def source_list (xs : List Nat) : libvlc_media_list_t :=
  { items := xs, p_flat_mlist := none, p_event_manager := [], i_refcount := 1 }

/-- Scenario 1 of the specification: the root list 0 holds the leaves A = 0
and B = 1. -/
def scenario_root_A_B : State :=
  { lists := [source_list [0, 1]], mds := [leaf_md, leaf_md], trace := [] }

/-- The source hierarchy changes: collection `c` loses item `x`. -/
def source_remove_item (s : State) (c x : Nat) : State :=
  match s.lists[c]? with
  | none => s
  | some ml => { s with lists := s.lists.set c { ml with items := ml.items.erase x } }

/-- The source hierarchy changes: collection `c` gains item `x` at its end. -/
def source_add_item (s : State) (c x : Nat) : State :=
  match s.lists[c]? with
  | none => s
  | some ml => { s with lists := s.lists.set c { ml with items := ml.items ++ [x] } }

/-- The source hierarchy changes: item `x` acquires the sub-collection `sub`. -/
def source_set_subitems (s : State) (x sub : Nat) : State :=
  match s.mds[x]? with
  | none => s
  | some md => { s with mds := s.mds.set x { md with p_subitems := some sub } }

/-- One step in the life of a projection: a call into `flat_media_list.c`, or
a change the owner of the source hierarchy makes between two calls. -/
inductive Event
  | build (p_mlist : Option Nat)
  | item_added (p_user_data : Option Nat) (p_md : Nat)
  | item_removed (p_user_data : Option Nat) (p_md : Nat)
  | subitems_discovered (p_user_data : Option Nat) (p_md : Nat)
  | expand (p_mlist : Option Nat) (p_submlist : Option Nat)
  | collapse (p_mlist : Option Nat) (p_submlist : Option Nat)
  | source (change : State → State)

/-- Run one step. -/
def exec (fuel : Nat) : Event → State → Except Fault State
  | .build p_mlist, s =>
    match libvlc_media_list_flat_media_list fuel p_mlist s with
    | .error e => .error e
    | .ok r => .ok r.2
  | .item_added p_user_data p_md, s => sublist_item_added fuel p_user_data p_md s
  | .item_removed p_user_data p_md, s => sublist_item_removed fuel p_user_data p_md s
  | .subitems_discovered p_user_data p_md, s => subitems_created fuel p_user_data p_md s
  | .expand p_mlist p_submlist, s => add_media_list fuel p_mlist p_submlist s
  | .collapse p_mlist p_submlist, s => remove_media_list fuel p_mlist p_submlist s
  | .source change, s => .ok (change s)

/-- Run a sequence of steps, stopping at the first fault. -/
def run (fuel : Nat) : List Event → State → Except Fault State
  | [], s => .ok s
  | e :: es, s =>
    match exec fuel e s with
    | .error err => .error err
    | .ok s1 => run fuel es s1

/-- The flat list of an `Except` result, for stating what a run produced. -/
def result_items (r : Except Fault State) (l : Nat) : Option (List Nat) :=
  match r with
  | .error _ => none
  | .ok s => some (items_of s l)

/-- Scenario 3 of the specification: root list 0 = [A], A owns list 1 = [B],
B owns list 2 = [C]; items A = 0, B = 1, C = 2. -/
def scenario_nested : State :=
  { lists := [source_list [0], source_list [1], source_list [2]],
    mds := [{ p_subitems := some 1, p_event_manager := [] },
            { p_subitems := some 2, p_event_manager := [] }, leaf_md],
    trace := [] }

/-- An empty root list 0 that has no flat list yet. -/
def empty_root_state : State :=
  { lists := [source_list []], mds := [], trace := [] }

/-- The empty root list 0 with its freshly created flat list 1, as
`libvlc_media_list_flat_media_list` hands them to `add_media_list`. -/
def fresh_projection_state : State :=
  { lists := [{ items := [], p_flat_mlist := some 1, p_event_manager := [], i_refcount := 1 },
              { items := [], p_flat_mlist := none, p_event_manager := [], i_refcount := 1 }],
    mds := [], trace := [] }

/-- The state `fresh_projection_state` after `add_media_list( flat, root )`:
the pair is registered on the root with the flat list 1 as user data. -/
def expanded_projection_state : State :=
  { lists := [{ items := [], p_flat_mlist := some 1,
                p_event_manager := [added_listener (some 1), removed_listener (some 1)],
                i_refcount := 1 },
              { items := [], p_flat_mlist := none, p_event_manager := [], i_refcount := 1 }],
    mds := [],
    trace := [Prim.event_attach (Emitter.of_list 0) (added_listener (some 1)),
              Prim.event_attach (Emitter.of_list 0) (removed_listener (some 1))] }

/-- The state `expanded_projection_state` after `remove_media_list( flat, root )`. -/
def collapsed_projection_state : State :=
  { expanded_projection_state with
    trace := expanded_projection_state.trace ++
      [Prim.event_detach (Emitter.of_list 1) (added_listener (some 1)),
       Prim.event_detach (Emitter.of_list 1) (removed_listener (some 1))] }

/-- What the build of `empty_root_state` returns: the flat list 1, held twice. -/
def built_empty_root_state : State :=
  { lists := [{ items := [], p_flat_mlist := some 1,
                p_event_manager := [added_listener (some 1), removed_listener (some 1)],
                i_refcount := 1 },
              { items := [], p_flat_mlist := none, p_event_manager := [], i_refcount := 2 }],
    mds := [],
    trace := [Prim.event_attach (Emitter.of_list 0) (added_listener (some 1)),
              Prim.event_attach (Emitter.of_list 0) (removed_listener (some 1))] }

/-- A projection holding one leaf: root list 0 = [A] with flat list 1 = [A];
A = 0 carries the discovery observer `add_item( root, A )` attaches, B = 1 is
a leaf outside the hierarchy. -/
def projection_A : State :=
  { lists := [{ items := [0], p_flat_mlist := some 1, p_event_manager := [], i_refcount := 1 },
              { items := [0], p_flat_mlist := none, p_event_manager := [], i_refcount := 2 }],
    mds := [{ p_subitems := none, p_event_manager := [discovery_listener (some 0)] }, leaf_md],
    trace := [] }

/-- A leaf shared by two branches: root list 0 = [P, Q] with flat list 1 = [X];
P = 0 owns list 2 = [X], Q = 1 owns list 3 = [X], X = 2 is a leaf. -/
def shared_leaf_state : State :=
  { lists := [{ items := [0, 1], p_flat_mlist := some 1, p_event_manager := [], i_refcount := 1 },
              { items := [2], p_flat_mlist := none, p_event_manager := [], i_refcount := 2 },
              source_list [2], source_list [2]],
    mds := [{ p_subitems := some 2, p_event_manager := [] },
            { p_subitems := some 3, p_event_manager := [] },
            { p_subitems := none, p_event_manager := [discovery_listener (some 0)] }],
    trace := [] }

/-- An internal item reachable through two branches: root list 0 = [P, Q] with
the empty flat list 1; P = 0 owns the empty list 2, Q = 1 owns list 3 = [P]. -/
def internal_item_state : State :=
  { lists := [{ items := [0, 1], p_flat_mlist := some 1, p_event_manager := [],
                i_refcount := 1 },
              { items := [], p_flat_mlist := none, p_event_manager := [], i_refcount := 2 },
              source_list [], source_list [0]],
    mds := [{ p_subitems := some 2, p_event_manager := [] },
            { p_subitems := some 3, p_event_manager := [] }],
    trace := [] }

/-- The state `internal_item_state` after one `add_item( root, P )`. -/
def internal_item_expanded : State :=
  { lists := [{ items := [0, 1], p_flat_mlist := some 1, p_event_manager := [],
                i_refcount := 1 },
              { items := [], p_flat_mlist := none, p_event_manager := [], i_refcount := 2 },
              { items := [], p_flat_mlist := none,
                p_event_manager := [added_listener (some 1), removed_listener (some 1)],
                i_refcount := 1 },
              source_list [0]],
    mds := [{ p_subitems := some 2, p_event_manager := [] },
            { p_subitems := some 3, p_event_manager := [] }],
    trace := [Prim.event_attach (Emitter.of_list 2) (added_listener (some 1)),
              Prim.event_attach (Emitter.of_list 2) (removed_listener (some 1))] }

/-- Scenario 2 of the specification at the moment of discovery: root list 0 =
[A, B] with flat list 1 = [A, B]; B = 1 has just acquired list 2 = [C, D];
A = 0 and B carry their discovery observers, C = 2 and D = 3 are new leaves. -/
def scenario_discovery : State :=
  { lists := [{ items := [0, 1], p_flat_mlist := some 1, p_event_manager := [],
                i_refcount := 1 },
              { items := [0, 1], p_flat_mlist := none, p_event_manager := [], i_refcount := 2 },
              source_list [2, 3]],
    mds := [{ p_subitems := none, p_event_manager := [discovery_listener (some 0)] },
            { p_subitems := some 2, p_event_manager := [discovery_listener (some 0)] },
            leaf_md, leaf_md],
    trace := [] }

/-- A run on `projection_A`: leaf B is announced, the root gains B, B is
announced a second time, A is removed, and the flat list is acquired again. -/
def announcements : List Event :=
  [.item_added (some 0) 1, .source (fun s => source_add_item s 0 1),
   .item_added (some 0) 1, .item_removed (some 0) 0, .build (some 0)]

/-- The state `run` reaches from `projection_A` along `announcements`. -/
def announcements_result : State :=
  { lists := [{ items := [0, 1], p_flat_mlist := some 1, p_event_manager := [], i_refcount := 1 },
              { items := [1], p_flat_mlist := none, p_event_manager := [], i_refcount := 3 }],
    mds := [{ p_subitems := none, p_event_manager := [] },
            { p_subitems := none, p_event_manager := [discovery_listener (some 0)] }],
    trace := [Prim.event_attach (Emitter.of_md 1) (discovery_listener (some 0)),
              Prim.add_media_descriptor 1 1,
              Prim.event_detach (Emitter.of_md 0) (discovery_listener (some 0)),
              Prim.remove_index 1 0] }

/-- Duplicate-freeness of every list is kept from `s` to `s1`. -/
def KeepsNodup (s s1 : State) : Prop :=
  ∀ l, (items_of s l).Nodup → (items_of s1 l).Nodup

/-- The observers of list `l` in an `Except` result. -/
def result_listeners (r : Except Fault State) (l : Nat) :
    Option (List libvlc_event_listener_t) :=
  match r with
  | .error _ => none
  | .ok s => some (listeners_of s l)

/-- The reference walk from `root` in an `Except` result. -/
def result_leaves (r : Except Fault State) (fuel : Nat) (root : Option Nat) :
    Option (List Nat) :=
  match r with
  | .error _ => none
  | .ok s => some (leaves fuel s root)

/-- The number of `libvlc_event_attach` calls on `em` logged in an `Except`
result. -/
def result_attach_count (r : Except Fault State) (em : Emitter) : Option Nat :=
  match r with
  | .error _ => none
  | .ok s => some (attach_count s.trace em)

/-- The state `internal_item_state` after `remove_media_list( root, list 2 )`:
the two detaches went to the root's event manager. -/
def internal_item_collapsed : State :=
  { internal_item_state with
    trace := [Prim.event_detach (Emitter.of_list 0) (added_listener (some 0)),
              Prim.event_detach (Emitter.of_list 0) (removed_listener (some 0))] }

/-- The number of `libvlc_media_list_add_media_descriptor` calls in a log. -/
def add_entries (tr : List Prim) : Nat :=
  tr.countP (fun e =>
    match e with
    | Prim.add_media_descriptor _ _ => true
    | _ => false)

/-- The number of `libvlc_media_list_remove_index` calls in a log. -/
def remove_entries (tr : List Prim) : Nat :=
  tr.countP (fun e =>
    match e with
    | Prim.remove_index _ _ => true
    | _ => false)

/-- Scenario 2 at the moment of discovery, with every `p_flat_mlist` the
callbacks read resolving to the flat list: root list 0 = [A, B], flat list 1 =
[A, B] is its own flat list, B = 1 has just acquired list 2 = [C, D], and the
discovery observers carry the flat list as user data. -/
def scenario_discovery_resolved : State :=
  { lists := [{ items := [0, 1], p_flat_mlist := some 1, p_event_manager := [],
                i_refcount := 1 },
              { items := [0, 1], p_flat_mlist := some 1, p_event_manager := [],
                i_refcount := 2 },
              source_list [2, 3]],
    mds := [{ p_subitems := none, p_event_manager := [discovery_listener (some 1)] },
            { p_subitems := some 2, p_event_manager := [discovery_listener (some 1)] },
            leaf_md, leaf_md],
    trace := [] }

/-- The comparison scenario for insertion in place: root list 0 = [B, A] with
flat list 1 = [B, A]; B = 0 and A = 1 are leaves carrying their discovery
observers, list 2 = [C, D] is the sub-collection B is about to gain, C = 2 and
D = 3 are leaves. -/
def scenario_in_place : State :=
  { lists := [{ items := [0, 1], p_flat_mlist := some 1, p_event_manager := [],
                i_refcount := 1 },
              { items := [0, 1], p_flat_mlist := none, p_event_manager := [], i_refcount := 2 },
              source_list [2, 3]],
    mds := [{ p_subitems := none, p_event_manager := [discovery_listener (some 0)] },
            { p_subitems := none, p_event_manager := [discovery_listener (some 0)] },
            leaf_md, leaf_md],
    trace := [] }

/-- Keep the first occurrence of every item of a sequence. -/
def first_occurrences : List Nat → List Nat
  | [] => []
  | x :: xs => x :: (first_occurrences xs).filter (fun y => decide (y ≠ x))

/-- A hierarchy in which order and repetition show: root list 0 = [A, P, B],
P = 1 owns list 1 = [C, A]; A = 0, B = 2 and C = 3 are leaves.  No flat list
yet. -/
def scenario_order : State :=
  { lists := [source_list [0, 1, 2], source_list [3, 0]],
    mds := [leaf_md, { p_subitems := some 1, p_event_manager := [] }, leaf_md, leaf_md],
    trace := [] }

/-- The hierarchy of `scenario_order` with an empty flat list 2 whose own
`p_flat_mlist` points back to it, so that every `p_flat_mlist` read by
`add_media_list( flat, root )` resolves to the flat list. -/
def scenario_order_resolved : State :=
  { lists := [{ items := [0, 1, 2], p_flat_mlist := some 2, p_event_manager := [],
                i_refcount := 1 },
              source_list [3, 0],
              { items := [], p_flat_mlist := some 2, p_event_manager := [], i_refcount := 1 }],
    mds := [leaf_md, { p_subitems := some 1, p_event_manager := [] }, leaf_md, leaf_md],
    trace := [] }

/-- The hierarchy below list `l` nests fewer than `d` lists deep: every item of
`l` is a leaf or owns a sub-collection that nests fewer than `d - 1` deep.  A
hierarchy with a cycle satisfies this for no `d`. -/
def nesting_within : Nat → State → Nat → Bool
  | 0, _, _ => false
  | d + 1, s, l =>
    (items_of s l).all (fun x =>
      match subitems_of s x with
      | none => true
      | some sub => nesting_within d s sub)

/-- A finite hierarchy with a cycle: root list 0 = [P] with the empty flat list
1; P = 0 owns list 2 = [Q], and Q = 1 owns list 2 again, the list it is in. -/
def scenario_cycle : State :=
  { lists := [{ items := [0], p_flat_mlist := some 1, p_event_manager := [], i_refcount := 1 },
              { items := [], p_flat_mlist := none, p_event_manager := [], i_refcount := 2 },
              source_list [1]],
    mds := [{ p_subitems := some 2, p_event_manager := [] },
            { p_subitems := some 2, p_event_manager := [] }],
    trace := [] }

/-- One call on a projection: `add_item` or `remove_item` for an item. -/
inductive ItemCall
  | add (p_md : Nat)
  | remove (p_md : Nat)
  deriving DecidableEq, Repr

/-- Run a sequence of `add_item` / `remove_item` calls that all get the list
argument `p_mlist`, stopping at the first fault. -/
def run_item_calls (fuel : Nat) (p_mlist : Option Nat) :
    List ItemCall → State → Except Fault State
  | [], s => .ok s
  | .add p_md :: calls, s =>
    match add_item fuel p_mlist p_md s with
    | .error e => .error e
    | .ok s1 => run_item_calls fuel p_mlist calls s1
  | .remove p_md :: calls, s =>
    match remove_item fuel p_mlist p_md s with
    | .error e => .error e
    | .ok s1 => run_item_calls fuel p_mlist calls s1

/-- The discovery observers of the projection of list `P` with flat list `F`
follow membership: `F` is the flat list of `P` and has none of its own, it is
duplicate-free, and an item carries exactly the discovery observer registered
with `P` when it is in `F`, and no observer otherwise. -/
structure Tracks (P F : Nat) (s : State) : Prop where
  flat_P : flat_of s P = some F
  flat_F : flat_of s F = none
  nodup : (items_of s F).Nodup
  observers : ∀ x, md_listeners_of s x
    = if x ∈ items_of s F then [discovery_listener (some P)] else []

/-- A projection before any insertion: root list 0 = [A, B] with the empty
flat list 1; the leaves A = 0 and B = 1 carry no observer. -/
def empty_projection_A_B : State :=
  { lists := [{ items := [0, 1], p_flat_mlist := some 1, p_event_manager := [],
                i_refcount := 1 },
              { items := [], p_flat_mlist := none, p_event_manager := [], i_refcount := 2 }],
    mds := [leaf_md, leaf_md],
    trace := [] }

/-- The state the calls add A, add B, add A, remove A reach from
`empty_projection_A_B`. -/
def projection_after_four_calls : State :=
  { lists := [{ items := [0, 1], p_flat_mlist := some 1, p_event_manager := [],
                i_refcount := 1 },
              { items := [1], p_flat_mlist := none, p_event_manager := [], i_refcount := 2 }],
    mds := [{ p_subitems := none, p_event_manager := [] },
            { p_subitems := none, p_event_manager := [discovery_listener (some 0)] }],
    trace := [Prim.event_attach (Emitter.of_md 0) (discovery_listener (some 0)),
              Prim.add_media_descriptor 1 0,
              Prim.event_attach (Emitter.of_md 1) (discovery_listener (some 0)),
              Prim.add_media_descriptor 1 1,
              Prim.event_detach (Emitter.of_md 0) (discovery_listener (some 0)),
              Prim.remove_index 1 0] }

end FlatMediaList

/-! ## The video model (`modules/gui/qt/medialibrary/mlvideomodel.cpp`) -/

namespace MLVideoModel

/-- Modelled from the spec: the enumeration `vlc_ml_sorting_criteria_t` (its
header is missing from the sources).  The four criteria that
`mlvideomodel.cpp` names are distinct values; `other n` stands for every
further value of the enumeration. -/
inductive vlc_ml_sorting_criteria_t
  | VLC_ML_SORTING_DEFAULT
  | VLC_ML_SORTING_ALPHA
  | VLC_ML_SORTING_DURATION
  | VLC_ML_SORTING_PLAYCOUNT
  | other (n : Nat)
  deriving DecidableEq, Repr

/-- Modelled from the spec: the role constants of `mlvideomodel.hpp` (missing
from the sources).  The thirteen roles are the case labels of one `switch` in
`MLVideoModel::data`, hence distinct; `other n` stands for every further
`int` role. -/
inductive Role
  | VIDEO_ID
  | VIDEO_TITLE
  | VIDEO_THUMBNAIL
  | VIDEO_DURATION
  | VIDEO_PROGRESS
  | VIDEO_PLAYCOUNT
  | VIDEO_RESOLUTION
  | VIDEO_CHANNEL
  | VIDEO_MRL
  | VIDEO_DISPLAY_MRL
  | VIDEO_VIDEO_TRACK
  | VIDEO_AUDIO_TRACK
  | VIDEO_TITLE_FIRST_SYMBOL
  | other (n : Nat)
  deriving DecidableEq, Repr

open vlc_ml_sorting_criteria_t Role

/-- The table `MLVideoModel::M_names_to_criteria`, in source order. -/
def M_names_to_criteria : List (String × vlc_ml_sorting_criteria_t) :=
  [("id", VLC_ML_SORTING_DEFAULT),
   ("title", VLC_ML_SORTING_ALPHA),
   ("duration", VLC_ML_SORTING_DURATION),
   ("playcount", VLC_ML_SORTING_PLAYCOUNT)]

/-- The lookup `QHash::value( key, defaultValue )`. -/
def hash_value {κ ν : Type} [DecidableEq κ] : List (κ × ν) → κ → ν → ν
  | [], _, d => d
  | (k1, v1) :: rest, k, d => if k1 = k then v1 else hash_value rest k d

/-- The reverse lookup `QHash::key( value, defaultKey )`: a key mapped to the
value (the first one in the order of the table), or the default key. -/
def hash_key {κ ν : Type} [DecidableEq ν] : List (κ × ν) → ν → κ → κ
  | [], _, d => d
  | (k1, v1) :: rest, v, d => if v1 = v then k1 else hash_key rest v d

/-- The lookup `QHash::operator[]` on a table that is only read: the entry of
the key when there is one. -/
def hash_find {κ ν : Type} [DecidableEq κ] : List (κ × ν) → κ → Option ν
  | [], _ => none
  | (k1, v1) :: rest, k => if k1 = k then some v1 else hash_find rest k

/-- The table returned by `MLVideoModel::roleNames`, in source order. -/
def roleNames : List (Role × String) :=
  [(VIDEO_ID, "id"),
   (VIDEO_TITLE, "title"),
   (VIDEO_THUMBNAIL, "thumbnail"),
   (VIDEO_DURATION, "duration"),
   (VIDEO_PROGRESS, "progress"),
   (VIDEO_PLAYCOUNT, "playcount"),
   (VIDEO_RESOLUTION, "resolution_name"),
   (VIDEO_CHANNEL, "channel"),
   (VIDEO_MRL, "mrl"),
   (VIDEO_DISPLAY_MRL, "display_mrl"),
   (VIDEO_AUDIO_TRACK, "audioDesc"),
   (VIDEO_VIDEO_TRACK, "videoDesc"),
   (VIDEO_TITLE_FIRST_SYMBOL, "title_first_symbol")]

/-- The function `MLVideoModel::roleToCriteria`. -/
def roleToCriteria : Role → vlc_ml_sorting_criteria_t
  | VIDEO_TITLE => VLC_ML_SORTING_ALPHA
  | VIDEO_DURATION => VLC_ML_SORTING_DURATION
  | VIDEO_PLAYCOUNT => VLC_ML_SORTING_PLAYCOUNT
  | _ => VLC_ML_SORTING_DEFAULT

/-- The function `MLVideoModel::nameToCriteria`. -/
def nameToCriteria (name : String) : vlc_ml_sorting_criteria_t :=
  hash_value M_names_to_criteria name VLC_ML_SORTING_DEFAULT

/-- The function `MLVideoModel::criteriaToName`. -/
def criteriaToName (criteria : vlc_ml_sorting_criteria_t) : String :=
  hash_key M_names_to_criteria criteria ""

end MLVideoModel

namespace FlatMediaList

/-! ## Frame lemmas -/

theorem grows_refl (s : State) : Grows s s := by
  constructor <;> intros <;> simp_all

theorem grows_trans {s s1 s2 : State} (h1 : Grows s s1) (h2 : Grows s1 s2) : Grows s s2 := by
  constructor
  · intro l; rw [h2.valid_list, h1.valid_list]
  · intro m; rw [h2.valid_md, h1.valid_md]
  · intro l; rw [h2.flat, h1.flat]
  · intro l; rw [h2.refcount, h1.refcount]
  · intro m; rw [h2.subitems, h1.subitems]
  · intro l; exact (h1.items_init l).trans (h2.items_init l)
  · intro l h; exact h2.nodup l (h1.nodup l h)
  · intro l x hx
    rcases h2.new_leaf l x hx with h | ⟨md, hmd, hsub⟩
    · exact h1.new_leaf l x h
    · right
      have hs := h1.subitems x
      have hv := h1.valid_md x
      simp only [subitems_of, hmd] at hs
      rw [hmd] at hv
      cases hx0 : s.mds[x]? with
      | none => simp [hx0] at hv
      | some md0 =>
        rw [hx0] at hs
        exact ⟨md0, hx0, by simpa [hsub] using hs.symm⟩
  · intro l; exact (h1.listeners_init l).trans (h2.listeners_init l)
  · intro m; exact (h1.md_listeners_init m).trans (h2.md_listeners_init m)
  · exact h1.trace_init.trans h2.trace_init
  · intro em; rw [h2.detach_same, h1.detach_same]

theorem shrinks_refl (p : Option Nat) (s : State) : Shrinks p s s := by
  constructor <;> intros <;> simp_all

theorem shrinks_trans {p : Option Nat} {s s1 s2 : State} (h1 : Shrinks p s s1)
    (h2 : Shrinks p s1 s2) : Shrinks p s s2 := by
  constructor
  · intro l; rw [h2.valid_list, h1.valid_list]
  · intro m; rw [h2.valid_md, h1.valid_md]
  · intro l; rw [h2.flat, h1.flat]
  · intro l; rw [h2.refcount, h1.refcount]
  · intro m; rw [h2.subitems, h1.subitems]
  · intro l; exact (h2.items_sublist l).trans (h1.items_sublist l)
  · intro l; exact (h2.listeners_sublist l).trans (h1.listeners_sublist l)
  · intro l hl; rw [h2.listeners_frame l hl, h1.listeners_frame l hl]
  · intro m; exact (h2.md_listeners_sublist m).trans (h1.md_listeners_sublist m)
  · exact h1.trace_init.trans h2.trace_init
  · intro em; rw [h2.attach_same, h1.attach_same]
  · intro l hl; rw [h2.detach_frame l hl, h1.detach_frame l hl]

/-- A loop preserves every reflexive, transitive relation its body preserves. -/
theorem for_loop_rel (R : State → State → Prop) (hrefl : ∀ s, R s s)
    (htrans : ∀ s s1 s2, R s s1 → R s1 s2 → R s s2)
    (body : Nat → State → Except Fault State)
    (hbody : ∀ i s s1, body i s = .ok s1 → R s s1) :
    ∀ n i s s1, for_loop body n i s = .ok s1 → R s s1 := by
  intro n
  induction n with
  | zero =>
    intro i s s1 h
    simp [for_loop] at h
    subst h
    exact hrefl s
  | succ n ih =>
    intro i s s1 h
    rw [for_loop] at h
    cases hb : body i s with
    | error e => simp [hb] at h
    | ok s2 =>
      rw [hb] at h
      exact htrans _ _ _ (hbody i s s2 hb) (ih (i + 1) s2 s1 h)

theorem getElem?_lt_of_eq_some {α : Type} {l : List α} {i : Nat} {a : α}
    (h : l[i]? = some a) : i < l.length := by
  by_contra hlt
  have : l[i]? = none := List.getElem?_eq_none (by omega)
  rw [this] at h
  cases h

theorem attach_list_grows {s s1 : State} {p : Option Nat} {x : libvlc_event_listener_t}
    (h : libvlc_event_attach_list s p x = .ok s1) : Grows s s1 := by
  unfold libvlc_event_attach_list at h
  split at h
  · cases h
  · split at h
    · cases h
    · rename_i l ml hml
      injection h with h
      subst h
      have hlt := getElem?_lt_of_eq_some hml
      constructor
      · intro k; simp [List.getElem?_set]; split_ifs <;> simp_all
      · intro k; simp
      · intro k; simp [flat_of, List.getElem?_set]; split_ifs <;> simp_all
      · intro k; simp [refcount_of, List.getElem?_set]; split_ifs <;> simp_all
      · intro k; simp [subitems_of]
      · intro k; simp [items_of, List.getElem?_set]; split_ifs <;> simp_all
      · intro k; simp [items_of, List.getElem?_set]; split_ifs <;> simp_all
      · intro k y; simp [items_of, List.getElem?_set]; split_ifs <;> simp_all
      · intro k; simp [listeners_of, List.getElem?_set]; split_ifs <;> simp_all
      · intro k; simp [md_listeners_of]
      · simp
      · intro em; simp [detach_count, List.countP_append, List.countP_cons]

theorem attach_md_grows {s s1 : State} {m : Nat} {x : libvlc_event_listener_t}
    (h : libvlc_event_attach_md s m x = .ok s1) : Grows s s1 := by
  unfold libvlc_event_attach_md at h
  split at h
  · cases h
  · rename_i md hmd
    injection h with h
    subst h
    have hlt := getElem?_lt_of_eq_some hmd
    constructor
    · intro k; simp
    · intro k; simp [List.getElem?_set]; split_ifs <;> simp_all
    · intro k; simp [flat_of]
    · intro k; simp [refcount_of]
    · intro k; simp [subitems_of, List.getElem?_set]; split_ifs <;> simp_all
    · intro k; simp [items_of]
    · intro k; simp [items_of]
    · intro k y; simp [items_of]; intro hy; exact Or.inl hy
    · intro k; simp [listeners_of]
    · intro k; simp [md_listeners_of, List.getElem?_set]; split_ifs <;> simp_all
    · simp
    · intro em; simp [detach_count, List.countP_append, List.countP_cons]

theorem add_media_descriptor_grows {s s1 : State} {l x : Nat} {ml : libvlc_media_list_t}
    (hml : s.lists[l]? = some ml) (hx : x ∉ ml.items) (hleaf : is_leaf s x)
    (h : libvlc_media_list_add_media_descriptor s (some l) x = .ok s1) : Grows s s1 := by
  simp only [libvlc_media_list_add_media_descriptor, hml] at h
  injection h with h
  subst h
  have hlt := getElem?_lt_of_eq_some hml
  constructor
  · intro k; simp [List.getElem?_set]; split_ifs <;> simp_all
  · intro k; simp
  · intro k; simp [flat_of, List.getElem?_set]; split_ifs <;> simp_all
  · intro k; simp [refcount_of, List.getElem?_set]; split_ifs <;> simp_all
  · intro k; simp [subitems_of]
  · intro k; simp [items_of, List.getElem?_set]; split_ifs <;> simp_all
  · intro k; simp [items_of, List.getElem?_set]; split_ifs <;> simp_all [List.nodup_append]
  · intro k y; simp [items_of, List.getElem?_set]; split_ifs <;> simp_all
    rintro (hy | hy)
    · exact Or.inl hy
    · subst hy; exact Or.inr hleaf
  · intro k; simp [listeners_of, List.getElem?_set]; split_ifs <;> simp_all
  · intro k; simp [md_listeners_of]
  · simp
  · intro em; simp [detach_count, List.countP_append, List.countP_cons]

theorem index_of_item_neg {s : State} {p : Option Nat} {x : Nat} {i : Int}
    (h : libvlc_media_list_index_of_item s p x = .ok i) (hi : i < 0) :
    ∃ l ml, p = some l ∧ s.lists[l]? = some ml ∧ x ∉ ml.items := by
  unfold libvlc_media_list_index_of_item deref_list at h
  cases p with
  | none => simp at h
  | some l =>
    cases hml : s.lists[l]? with
    | none => simp [hml] at h
    | some ml =>
      refine ⟨l, ml, rfl, hml, ?_⟩
      simp only [hml] at h
      by_cases hx : x ∈ ml.items
      · simp [hx] at h
        omega
      · exact hx

theorem index_of_item_nonneg {s : State} {p : Option Nat} {x : Nat} {i : Int}
    (h : libvlc_media_list_index_of_item s p x = .ok i) (hi : ¬ i < 0) :
    ∃ l ml, p = some l ∧ s.lists[l]? = some ml ∧ x ∈ ml.items ∧
      i = (ml.items.indexOf x : Nat) := by
  unfold libvlc_media_list_index_of_item deref_list at h
  cases p with
  | none => simp at h
  | some l =>
    cases hml : s.lists[l]? with
    | none => simp [hml] at h
    | some ml =>
      refine ⟨l, ml, rfl, hml, ?_⟩
      simp only [hml] at h
      by_cases hx : x ∈ ml.items
      · simp [hx] at h
        exact ⟨hx, h.symm⟩
      · simp [hx] at h
        omega

theorem remove_first_sublist (x : libvlc_event_listener_t) :
    ∀ l : List libvlc_event_listener_t, (remove_first x l).Sublist l := by
  intro l
  induction l with
  | nil => simp [remove_first]
  | cons y ys ih =>
    simp only [remove_first]
    split_ifs
    · exact List.sublist_cons_self y ys
    · exact ih.cons₂ y

theorem detach_md_shrinks (p : Option Nat) {s s1 : State} {m : Nat}
    {x : libvlc_event_listener_t}
    (h : libvlc_event_detach_md s m x = .ok s1) : Shrinks p s s1 := by
  unfold libvlc_event_detach_md at h
  split at h
  · cases h
  · rename_i md hmd
    injection h with h
    subst h
    have hlt := getElem?_lt_of_eq_some hmd
    constructor
    · intro k; simp
    · intro k; simp [List.getElem?_set]; split_ifs <;> simp_all
    · intro k; simp [flat_of]
    · intro k; simp [refcount_of]
    · intro k; simp [subitems_of, List.getElem?_set]; split_ifs <;> simp_all
    · intro k; simp [items_of]
    · intro k; simp [listeners_of]
    · intro k _; simp [listeners_of]
    · intro k; simp [md_listeners_of, List.getElem?_set]; split_ifs <;>
        simp_all [remove_first_sublist]
    · simp
    · intro em; simp [attach_count, List.countP_append, List.countP_cons]
    · intro k _; simp [detach_count, List.countP_append, List.countP_cons]

theorem detach_list_shrinks {p : Option Nat} {s s1 : State}
    {x : libvlc_event_listener_t}
    (h : libvlc_event_detach_list s p x = .ok s1) : Shrinks p s s1 := by
  unfold libvlc_event_detach_list at h
  split at h
  · cases h
  · split at h
    · cases h
    · rename_i l _ ml hml
      injection h with h
      subst h
      have hlt := getElem?_lt_of_eq_some hml
      constructor
      · intro k; simp [List.getElem?_set]; split_ifs <;> simp_all
      · intro k; simp
      · intro k; simp [flat_of, List.getElem?_set]; split_ifs <;> simp_all
      · intro k; simp [refcount_of, List.getElem?_set]; split_ifs <;> simp_all
      · intro k; simp [subitems_of]
      · intro k; simp [items_of, List.getElem?_set]; split_ifs <;> simp_all
      · intro k; simp [listeners_of, List.getElem?_set]; split_ifs <;>
          simp_all [remove_first_sublist]
      · intro k hk
        have hkl : l ≠ k := fun e => hk (by rw [e])
        simp [listeners_of, List.getElem?_set, hkl]
      · intro k; simp [md_listeners_of]
      · simp
      · intro em; simp [attach_count, List.countP_append, List.countP_cons]
      · intro k hk
        have hkl : l ≠ k := fun e => hk (by rw [e])
        simp [detach_count, List.countP_append, List.countP_cons, hkl]

theorem remove_index_shrinks (p : Option Nat) {s s1 : State} {q : Option Nat} {i : Int}
    (h : libvlc_media_list_remove_index s q i = .ok s1) : Shrinks p s s1 := by
  unfold libvlc_media_list_remove_index at h
  split at h
  · cases h
  · split at h
    · cases h
    · rename_i l ml hml
      split at h
      · injection h with h
        subst h
        have hlt := getElem?_lt_of_eq_some hml
        constructor
        · intro k; simp [List.getElem?_set]; split_ifs <;> simp_all
        · intro k; simp
        · intro k; simp [flat_of, List.getElem?_set]; split_ifs <;> simp_all
        · intro k; simp [refcount_of, List.getElem?_set]; split_ifs <;> simp_all
        · intro k; simp [subitems_of]
        · intro k; simp [items_of, List.getElem?_set]; split_ifs <;>
            simp_all [List.eraseIdx_sublist]
        · intro k; simp [listeners_of, List.getElem?_set]; split_ifs <;> simp_all
        · intro k _; simp [listeners_of, List.getElem?_set]; split_ifs <;> simp_all
        · intro k; simp [md_listeners_of]
        · simp
        · intro em; simp [attach_count, List.countP_append, List.countP_cons]
        · intro k _; simp [detach_count, List.countP_append, List.countP_cons]
      · cases h

theorem attach_md_lists {s s1 : State} {m : Nat} {x : libvlc_event_listener_t}
    (h : libvlc_event_attach_md s m x = .ok s1) : s1.lists = s.lists := by
  unfold libvlc_event_attach_md at h
  split at h
  · cases h
  · injection h with h
    subst h
    rfl

theorem detach_md_lists {s s1 : State} {m : Nat} {x : libvlc_event_listener_t}
    (h : libvlc_event_detach_md s m x = .ok s1) : s1.lists = s.lists := by
  unfold libvlc_event_detach_md at h
  split at h
  · cases h
  · injection h with h
    subst h
    rfl

theorem deref_list_congr {s s1 : State} (h : s1.lists = s.lists) (p : Option Nat) :
    deref_list s1 p = deref_list s p := by
  unfold deref_list
  rw [h]

theorem is_leaf_of_grows {s s1 : State} (h : Grows s s1) {x : Nat} (hx : is_leaf s x) :
    is_leaf s1 x := by
  obtain ⟨md, hmd, hsub⟩ := hx
  have hv := h.valid_md x
  have hs := h.subitems x
  rw [hmd] at hv
  simp only [subitems_of, hmd, hsub] at hs
  cases h1 : s1.mds[x]? with
  | none => simp [h1] at hv
  | some md1 =>
    rw [h1] at hs
    exact ⟨md1, h1, hs⟩

theorem deref_md_some {s : State} {x : Nat} {md : libvlc_media_descriptor_t}
    (h : deref_md s x = .ok md) : s.mds[x]? = some md := by
  unfold deref_md at h
  split at h
  · cases h
  · injection h with h
    subst h
    assumption

theorem deref_list_some {s : State} {p : Option Nat} {ml : libvlc_media_list_t}
    (h : deref_list s p = .ok ml) : ∃ l, p = some l ∧ s.lists[l]? = some ml := by
  unfold deref_list at h
  split at h
  · cases h
  · split at h
    · cases h
    · injection h with h
      subst h
      exact ⟨_, rfl, by assumption⟩

/-- The insertion step of `add_item` stays within `Grows` whenever the callee does. -/
theorem add_item_body_grows
    (r : Option Nat → Option Nat → State → Except Fault State)
    (hr : ∀ p c s s1, r p c s = .ok s1 → Grows s s1) :
    ∀ p x s s1, add_item_body r p x s = .ok s1 → Grows s s1 := by
  intro p x s s1 h
  unfold add_item_body at h
  cases hp : deref_list s p with
  | error e => simp [hp] at h
  | ok ml =>
    simp only [hp] at h
    cases hi : libvlc_media_list_index_of_item s ml.p_flat_mlist x with
    | error e => simp [hi] at h
    | ok i =>
      simp only [hi] at h
      by_cases hneg : i < 0
      · simp only [hneg, if_true] at h
        cases hmd : deref_md s x with
        | error e => simp [hmd] at h
        | ok md =>
          simp only [hmd] at h
          cases hsub : md.p_subitems with
          | some sub =>
            simp only [hsub] at h
            exact hr _ _ _ _ h
          | none =>
            simp only [hsub] at h
            cases ha : libvlc_event_attach_md s x (discovery_listener p) with
            | error e => simp [discovery_listener] at ha; simp [ha] at h
            | ok s2 =>
              have ha2 := ha
              simp only [discovery_listener] at ha2
              simp only [ha2, deref_list_congr (attach_md_lists ha) p, hp] at h
              obtain ⟨l, mlF, hl, hmlF, hnot⟩ := index_of_item_neg hi hneg
              have hg1 : Grows s s2 := attach_md_grows ha
              have hleaf : is_leaf s2 x :=
                is_leaf_of_grows hg1 ⟨md, deref_md_some hmd, hsub⟩
              rw [hl] at h
              have hmlF2 : s2.lists[l]? = some mlF := by
                rw [attach_md_lists ha]; exact hmlF
              exact grows_trans hg1 (add_media_descriptor_grows hmlF2 hnot hleaf h)
      · simp only [hneg, if_false] at h
        injection h with h
        subst h
        exact grows_refl s

/-- Whatever `add_media_list` returns, it is reached from the start state by
growth only. -/
theorem add_media_list_grows :
    ∀ fuel p c s s1, add_media_list fuel p c s = .ok s1 → Grows s s1 := by
  intro fuel
  induction fuel with
  | zero => intro p c s s1 h; simp [add_media_list] at h
  | succ fuel ih =>
    intro p c s s1 h
    rw [add_media_list] at h
    cases hc : libvlc_media_list_count s c with
    | error e => simp [hc] at h
    | ok count =>
      simp only [hc] at h
      cases h1 : libvlc_event_attach_list s c (added_listener p) with
      | error e => simp [added_listener] at h1; simp [h1] at h
      | ok s2 =>
        have h1b := h1
        simp only [added_listener] at h1b
        simp only [h1b] at h
        cases h2 : libvlc_event_attach_list s2 c (removed_listener p) with
        | error e => simp [removed_listener] at h2; simp [h2] at h
        | ok s3 =>
          have h2b := h2
          simp only [removed_listener] at h2b
          simp only [h2b] at h
          refine grows_trans (attach_list_grows h1) (grows_trans (attach_list_grows h2) ?_)
          refine for_loop_rel Grows grows_refl (fun _ _ _ => grows_trans) _ ?_ _ _ _ _ h
          intro i st st1 hb
          cases hidx : libvlc_media_list_item_at_index st c i with
          | error e => simp [hidx] at hb
          | ok p_md =>
            simp only [hidx] at hb
            cases hd : deref_list st p with
            | error e => simp [hd] at hb
            | ok ml =>
              simp only [hd] at hb
              exact add_item_body_grows _ (ih) _ _ _ _ hb

theorem add_item_grows {fuel : Nat} {p : Option Nat} {x : Nat} {s s1 : State}
    (h : add_item fuel p x s = .ok s1) : Grows s s1 :=
  add_item_body_grows _ (add_media_list_grows fuel) _ _ _ _ h

/-- The removal step of `remove_item` stays within `Shrinks` whenever the
callee does. -/
theorem remove_item_body_shrinks (p : Option Nat)
    (r : Option Nat → Option Nat → State → Except Fault State)
    (hr : ∀ c s s1, r p c s = .ok s1 → Shrinks p s s1) :
    ∀ x s s1, remove_item_body r p x s = .ok s1 → Shrinks p s s1 := by
  intro x s s1 h
  unfold remove_item_body at h
  cases hmd : deref_md s x with
  | error e => simp [hmd] at h
  | ok md =>
    simp only [hmd] at h
    have hfirst : ∀ s2, (match md.p_subitems with
        | some sub => r p (some sub) s
        | none => Except.ok s) = .ok s2 → Shrinks p s s2 := by
      intro s2 h2
      cases hsub : md.p_subitems with
      | some sub => rw [hsub] at h2; exact hr _ _ _ h2
      | none =>
        rw [hsub] at h2
        injection h2 with h2
        subst h2
        exact shrinks_refl p s
    cases h1 : (match md.p_subitems with
        | some sub => r p (some sub) s
        | none => Except.ok s) with
    | error e => simp [h1] at h
    | ok s2 =>
      simp only [h1] at h
      cases hd : libvlc_event_detach_md s2 x (discovery_listener p) with
      | error e => simp [discovery_listener] at hd; simp [hd] at h
      | ok s3 =>
        have hd2 := hd
        simp only [discovery_listener] at hd2
        simp only [hd2] at h
        cases hp : deref_list s3 p with
        | error e => simp [hp] at h
        | ok ml =>
          simp only [hp] at h
          cases hi : libvlc_media_list_index_of_item s3 ml.p_flat_mlist x with
          | error e => simp [hi] at h
          | ok i =>
            simp only [hi] at h
            exact shrinks_trans (hfirst s2 h1) (shrinks_trans (detach_md_shrinks p hd)
              (remove_index_shrinks p h))

/-- Whatever `remove_media_list` returns, it is reached from the start state by
removals only, and only `p_mlist` loses list observers. -/
theorem remove_media_list_shrinks :
    ∀ fuel p c s s1, remove_media_list fuel p c s = .ok s1 → Shrinks p s s1 := by
  intro fuel
  induction fuel with
  | zero => intro p c s s1 h; simp [remove_media_list] at h
  | succ fuel ih =>
    intro p c s s1 h
    rw [remove_media_list] at h
    cases hc : libvlc_media_list_count s c with
    | error e => simp [hc] at h
    | ok count =>
      simp only [hc] at h
      cases hl : for_loop (fun i st =>
              match libvlc_media_list_item_at_index st c i with
              | .error e => .error e
              | .ok p_md => remove_item_body (remove_media_list fuel) p p_md st)
            count 0 s with
      | error e => simp [hl] at h
      | ok s2 =>
        simp only [hl] at h
        have hloop : Shrinks p s s2 := by
          refine for_loop_rel (Shrinks p) (shrinks_refl p) (fun _ _ _ => shrinks_trans)
            _ ?_ _ _ _ _ hl
          intro i st st1 hb
          cases hidx : libvlc_media_list_item_at_index st c i with
          | error e => simp [hidx] at hb
          | ok p_md =>
            simp only [hidx] at hb
            exact remove_item_body_shrinks p _ (fun c s s1 => ih p c s s1) _ _ _ hb
        cases h1 : libvlc_event_detach_list s2 p (added_listener p) with
        | error e => simp [added_listener] at h1; simp [h1] at h
        | ok s3 =>
          have h1b := h1
          simp only [added_listener] at h1b
          simp only [h1b] at h
          exact shrinks_trans hloop (shrinks_trans (detach_list_shrinks h1) (detach_list_shrinks h))

theorem remove_item_shrinks {fuel : Nat} {p : Option Nat} {x : Nat} {s s1 : State}
    (h : remove_item fuel p x s = .ok s1) : Shrinks p s s1 :=
  remove_item_body_shrinks p _ (fun c s s1 => remove_media_list_shrinks fuel p c s s1)
    _ _ _ h

/-- The exact effect of `add_item` on a leaf that is not yet in the flat list
`F = p_mlist->p_flat_mlist`: one discovery observer on the item, the item
appended to `F`. -/
theorem add_item_leaf_eq (s : State) (p : Option Nat) (F x : Nat)
    (ml mlF : libvlc_media_list_t) (md : libvlc_media_descriptor_t) (fuel : Nat)
    (hp : deref_list s p = .ok ml) (hF : ml.p_flat_mlist = some F)
    (hmlF : s.lists[F]? = some mlF) (hx : s.mds[x]? = some md)
    (hleaf : md.p_subitems = none) (hnot : x ∉ mlF.items) :
    add_item fuel p x s = .ok
      { lists := s.lists.set F { mlF with items := mlF.items ++ [x] },
        mds := s.mds.set x
          { md with p_event_manager := md.p_event_manager ++ [discovery_listener p] },
        trace := s.trace ++ [Prim.event_attach (Emitter.of_md x) (discovery_listener p),
                             Prim.add_media_descriptor F x] } := by
  obtain ⟨l, hl, hml⟩ := deref_list_some hp
  subst hl
  simp [add_item, add_item_body, deref_list, hml, hF, libvlc_media_list_index_of_item,
    hmlF, hnot, deref_md, hx, hleaf, libvlc_event_attach_md,
    libvlc_media_list_add_media_descriptor, discovery_listener]

/-- The exact effect of `remove_item` on a leaf that is in the flat list
`F = p_mlist->p_flat_mlist`. -/
theorem remove_item_leaf_eq (s : State) (p : Option Nat) (F x : Nat)
    (ml mlF : libvlc_media_list_t) (md : libvlc_media_descriptor_t) (fuel : Nat)
    (hp : deref_list s p = .ok ml) (hF : ml.p_flat_mlist = some F)
    (hmlF : s.lists[F]? = some mlF) (hx : s.mds[x]? = some md)
    (hleaf : md.p_subitems = none) (hmem : x ∈ mlF.items) :
    remove_item fuel p x s = .ok
      { lists := s.lists.set F { mlF with items := mlF.items.erase x },
        mds := s.mds.set x
          { md with p_event_manager := remove_first (discovery_listener p) md.p_event_manager },
        trace := s.trace ++ [Prim.event_detach (Emitter.of_md x) (discovery_listener p),
                             Prim.remove_index F (mlF.items.indexOf x : Nat)] } := by
  obtain ⟨l, hl, hml⟩ := deref_list_some hp
  subst hl
  have hidx : mlF.items.indexOf x < mlF.items.length := List.indexOf_lt_length.mpr hmem
  simp [remove_item, remove_item_body, deref_list, hml, hF, libvlc_media_list_index_of_item,
    hmlF, hmem, deref_md, hx, hleaf, libvlc_event_detach_md,
    libvlc_media_list_remove_index, discovery_listener, hidx]

/-! ## C1: the initial build -/

/-- C1 (the code faults): whenever the root has no flat list yet and holds at
least one item, `libvlc_media_list_flat_media_list` does not return.  It hands
the freshly created flat list to `add_media_list` as `p_mlist`, whose loop calls
`add_item( p_mlist->p_flat_mlist, p_md )`; the fresh list has no flat list of
its own, so `add_item` reads `p_flat_mlist` through a NULL pointer. -/
theorem flat_media_list_nonempty_root_faults (s : State) (root : Nat)
    (ml : libvlc_media_list_t) (hroot : s.lists[root]? = some ml)
    (hflat : ml.p_flat_mlist = none) (hne : ml.items ≠ []) (fuel : Nat) :
    libvlc_media_list_flat_media_list (fuel + 1) (some root) s = .error .null_deref := by
  have hlt : root < s.lists.length := getElem?_lt_of_eq_some hroot
  obtain ⟨x, xs, hxs⟩ := List.exists_cons_of_ne_nil hne
  simp [libvlc_media_list_flat_media_list, hroot, hflat, libvlc_media_list_new,
    add_media_list, libvlc_media_list_count, deref_list, libvlc_event_attach_list,
    List.getElem?_set, List.getElem?_append, hlt, hxs, for_loop,
    libvlc_media_list_item_at_index, add_item_body]

/-- C1 at scenario 1 of the specification (root [A, B], no sub-collections):
the reference walk finds the leaves [A, B], and the build faults instead of
returning the flat list [A, B]. -/
theorem flat_media_list_root_A_B_faults :
    leaves 1 scenario_root_A_B (some 0) = [0, 1] ∧
    libvlc_media_list_flat_media_list 5 (some 0) scenario_root_A_B = .error .null_deref :=
  ⟨by decide,
   flat_media_list_nonempty_root_faults scenario_root_A_B 0 (source_list [0, 1]) rfl rfl
     (by decide) 4⟩

/-! ## C2: source mutations -/

theorem items_of_set_self {s : State} {F : Nat} {mlF ml1 : libvlc_media_list_t}
    (hmlF : s.lists[F]? = some mlF) (mds : List libvlc_media_descriptor_t)
    (tr : List Prim) :
    items_of { lists := s.lists.set F ml1, mds := mds, trace := tr } F = ml1.items := by
  have hlt := getElem?_lt_of_eq_some hmlF
  simp [items_of, List.getElem?_set, hlt]

theorem items_of_set_other {s : State} {F l : Nat} (ml1 : libvlc_media_list_t)
    (mds : List libvlc_media_descriptor_t) (tr : List Prim) (h : l ≠ F) :
    items_of { lists := s.lists.set F ml1, mds := mds, trace := tr } l = items_of s l := by
  have h2 : ¬ F = l := fun e => h e.symm
  simp [items_of, List.getElem?_set, h2]

theorem subitems_of_set_listeners {s : State} {x : Nat} {md : libvlc_media_descriptor_t}
    (hx : s.mds[x]? = some md) (lists : List libvlc_media_list_t) (tr : List Prim)
    (em : List libvlc_event_listener_t) (m : Nat) :
    subitems_of { lists := lists, mds := s.mds.set x { md with p_event_manager := em },
                  trace := tr } m = subitems_of s m := by
  have hlt := getElem?_lt_of_eq_some hx
  by_cases h1 : x = m
  · subst h1; simp [subitems_of, List.getElem?_set, hx, hlt]
  · simp [subitems_of, List.getElem?_set, h1]

/-- C2 (amended): for a leaf item `x` and a handler argument whose list has a
flat list `F`, `sublist_item_added` returns with the flat item set enlarged by
`x`, and `sublist_item_removed` of a member `x` returns with the flat item set
reduced by `x`; no other list and no sub-collection changes.  The removal
takes `x` out of the flat list without looking at the other branches of the
hierarchy. -/
theorem leaf_item_events_update_flat_set (s : State) (p_user_data : Option Nat)
    (F x : Nat) (ml mlF : libvlc_media_list_t) (md : libvlc_media_descriptor_t)
    (fuel : Nat)
    (hp : deref_list s p_user_data = .ok ml) (hF : ml.p_flat_mlist = some F)
    (hmlF : s.lists[F]? = some mlF) (hx : s.mds[x]? = some md)
    (hleaf : md.p_subitems = none) :
    (∃ s1, sublist_item_added fuel p_user_data x s = .ok s1 ∧
        (∀ y, y ∈ items_of s1 F ↔ y ∈ items_of s F ∨ y = x) ∧
        (∀ l, l ≠ F → items_of s1 l = items_of s l) ∧
        (∀ m, subitems_of s1 m = subitems_of s m)) ∧
    (x ∈ items_of s F → (items_of s F).Nodup →
      ∃ s1, sublist_item_removed fuel p_user_data x s = .ok s1 ∧
        (∀ y, y ∈ items_of s1 F ↔ y ∈ items_of s F ∧ y ≠ x) ∧
        (∀ l, l ≠ F → items_of s1 l = items_of s l) ∧
        (∀ m, subitems_of s1 m = subitems_of s m)) := by
  have hitems : items_of s F = mlF.items := by simp [items_of, hmlF]
  constructor
  · by_cases hmem : x ∈ mlF.items
    · refine ⟨s, ?_, ?_, fun _ _ => rfl, fun _ => rfl⟩
      · obtain ⟨l, hl, hml⟩ := deref_list_some hp
        subst hl
        simp [sublist_item_added, add_item, add_item_body, deref_list, hml, hF,
          libvlc_media_list_index_of_item, hmlF, hmem]
      · intro y
        rw [hitems]
        constructor
        · exact Or.inl
        · rintro (h | h)
          · exact h
          · subst h; exact hmem
    · refine ⟨_, add_item_leaf_eq s p_user_data F x ml mlF md fuel hp hF hmlF hx hleaf hmem,
        ?_, ?_, ?_⟩
      · intro y
        rw [items_of_set_self hmlF, hitems]
        simp
      · intro l hl
        exact items_of_set_other _ _ _ hl
      · intro m
        exact subitems_of_set_listeners hx _ _ _ m
  · intro hmem hnd
    rw [hitems] at hmem hnd
    refine ⟨_, remove_item_leaf_eq s p_user_data F x ml mlF md fuel hp hF hmlF hx hleaf hmem,
      ?_, ?_, ?_⟩
    · intro y
      rw [items_of_set_self hmlF, hitems]
      simp only [hnd.mem_erase_iff]
      tauto
    · intro l hl
      exact items_of_set_other _ _ _ hl
    · intro m
      exact subitems_of_set_listeners hx _ _ _ m

/-- C2 (amended) at `projection_A`, item A: a repeated announcement of A keeps
the flat set, and the removal of A empties it. -/
theorem leaf_item_events_at_projection_A :
    (∃ s1, sublist_item_added 0 (some 0) 0 projection_A = .ok s1 ∧
        (∀ y, y ∈ items_of s1 1 ↔ y ∈ items_of projection_A 1 ∨ y = 0) ∧
        (∀ l, l ≠ 1 → items_of s1 l = items_of projection_A l) ∧
        (∀ m, subitems_of s1 m = subitems_of projection_A m)) ∧
    (∃ s1, sublist_item_removed 0 (some 0) 0 projection_A = .ok s1 ∧
        (∀ y, y ∈ items_of s1 1 ↔ y ∈ items_of projection_A 1 ∧ y ≠ 0) ∧
        (∀ l, l ≠ 1 → items_of s1 l = items_of projection_A l) ∧
        (∀ m, subitems_of s1 m = subitems_of projection_A m)) :=
  ⟨(leaf_item_events_update_flat_set projection_A (some 0) 1 0 _ _ _ 0 rfl rfl rfl rfl rfl).1,
   (leaf_item_events_update_flat_set projection_A (some 0) 1 0 _ _ _ 0 rfl rfl rfl rfl rfl).2
     (by decide) (by decide)⟩

/-- C2 (counterexample): in `shared_leaf_state` the flat list [X] holds exactly
the reachable leaves.  X is removed from P's sub-collection only and
`sublist_item_removed` runs: it returns with an empty flat list, although the
reference walk still reaches X through Q. -/
theorem shared_leaf_removal_breaks_completeness :
    items_of shared_leaf_state 1 = [2] ∧
    (leaves 2 shared_leaf_state (some 0)).dedup = [2] ∧
    result_items
      (sublist_item_removed 1 (some 0) 2 (source_remove_item shared_leaf_state 2 2)) 1
      = some [] ∧
    result_leaves
      (sublist_item_removed 1 (some 0) 2 (source_remove_item shared_leaf_state 2 2)) 2 (some 0)
      = some [2] := by
  decide

/-! ## C3: no duplicates -/

theorem retain_items {s s1 : State} {p : Option Nat}
    (h : libvlc_media_list_retain s p = .ok s1) (k : Nat) :
    items_of s1 k = items_of s k := by
  unfold libvlc_media_list_retain at h
  split at h
  · cases h
  · split at h
    · cases h
    · rename_i l _ ml hml
      injection h with h
      subst h
      have hlt := getElem?_lt_of_eq_some hml
      simp [items_of, List.getElem?_set]
      split_ifs <;> simp_all

theorem new_list_items (s : State) (l : Nat) (ml : libvlc_media_list_t)
    (hml : s.lists[l]? = some ml) (k : Nat) :
    items_of { (libvlc_media_list_new s).2 with
        lists := (libvlc_media_list_new s).2.lists.set l
          { ml with p_flat_mlist := some (libvlc_media_list_new s).1 } } k
      = items_of s k := by
  have hlt := getElem?_lt_of_eq_some hml
  simp only [items_of, libvlc_media_list_new, List.getElem?_set, List.length_append,
    List.length_singleton]
  by_cases hk : l = k
  · subst hk
    have : l < s.lists.length + 1 := by omega
    simp [this, hml]
  · simp only [hk, if_false]
    rcases Nat.lt_trichotomy k s.lists.length with h | h | h
    · rw [List.getElem?_append_left h]
    · subst h
      simp
    · have h1 : s.lists[k]? = none := List.getElem?_eq_none (by omega)
      rw [h1, List.getElem?_eq_none (by simp; omega)]

theorem flat_media_list_keeps_nodup {fuel : Nat} {p : Option Nat} {s : State}
    {r : Option Nat × State}
    (h : libvlc_media_list_flat_media_list fuel p s = .ok r) : KeepsNodup s r.2 := by
  unfold libvlc_media_list_flat_media_list at h
  cases p with
  | none => simp at h
  | some l =>
    simp only at h
    cases hml : s.lists[l]? with
    | none => simp [hml] at h
    | some ml =>
      simp only [hml] at h
      have hfirst : ∀ s2, (match ml.p_flat_mlist with
             | some _ => Except.ok s
             | none =>
               let r := libvlc_media_list_new s
               let s1 : State :=
                 { r.2 with lists := r.2.lists.set l { ml with p_flat_mlist := some r.1 } }
               add_media_list fuel (some r.1) (some l) s1) = .ok s2 → KeepsNodup s s2 := by
        intro s2 h2
        cases hfl : ml.p_flat_mlist with
        | some f =>
          rw [hfl] at h2
          injection h2 with h2
          subst h2
          exact fun _ hn => hn
        | none =>
          rw [hfl] at h2
          simp only at h2
          intro k hn
          have hg := add_media_list_grows _ _ _ _ _ h2
          apply hg.nodup k
          rw [new_list_items s l ml hml k]
          exact hn
      cases h1 : (match ml.p_flat_mlist with
             | some _ => Except.ok s
             | none =>
               let r := libvlc_media_list_new s
               let s1 : State :=
                 { r.2 with lists := r.2.lists.set l { ml with p_flat_mlist := some r.1 } }
               add_media_list fuel (some r.1) (some l) s1) with
      | error e => simp [h1] at h
      | ok s2 =>
        simp only [h1] at h
        cases hd : deref_list s2 (some l) with
        | error e => simp [hd] at h
        | ok ml2 =>
          simp only [hd] at h
          cases hr : libvlc_media_list_retain s2 ml2.p_flat_mlist with
          | error e => simp [hr] at h
          | ok s3 =>
            simp only [hr] at h
            cases hd3 : deref_list s3 (some l) with
            | error e => simp [hd3] at h
            | ok ml3 =>
              simp only [hd3] at h
              injection h with h
              subst h
              intro k hn
              simp only
              rw [retain_items hr k]
              exact hfirst s2 h1 k hn

theorem subitems_created_keeps_nodup {fuel : Nat} {p : Option Nat} {x : Nat}
    {s s1 : State} (h : subitems_created fuel p x s = .ok s1) : KeepsNodup s s1 := by
  unfold subitems_created at h
  cases hd : deref_list s p with
  | error e => simp [hd] at h
  | ok ml =>
    simp only [hd] at h
    cases hr : remove_item fuel ml.p_flat_mlist x s with
    | error e => simp [hr] at h
    | ok s2 =>
      simp only [hr] at h
      cases hd2 : deref_list s2 p with
      | error e => simp [hd2] at h
      | ok ml2 =>
        simp only [hd2] at h
        cases hm : deref_md s2 x with
        | error e => simp [hm] at h
        | ok md =>
          simp only [hm] at h
          intro k hn
          exact (add_media_list_grows _ _ _ _ _ h).nodup k
            (hn.sublist ((remove_item_shrinks hr).items_sublist k))

/-- C3: along every sequence of builds, item-added, item-removed and
discovery events, direct expansions and collapses, and source changes that do
not write to the list `F`, a duplicate-free `F` stays duplicate-free. -/
theorem flat_list_never_holds_duplicates (fuel : Nat) (es : List Event) (F : Nat)
    (s s1 : State)
    (hsrc : ∀ change, Event.source change ∈ es → ∀ t, items_of (change t) F = items_of t F)
    (h0 : (items_of s F).Nodup) (hrun : run fuel es s = .ok s1) :
    (items_of s1 F).Nodup := by
  induction es generalizing s with
  | nil =>
    simp [run] at hrun
    subst hrun
    exact h0
  | cons e es ih =>
    rw [run] at hrun
    cases he : exec fuel e s with
    | error err => simp [he] at hrun
    | ok s2 =>
      simp only [he] at hrun
      refine ih s2 (fun c hc => hsrc c (List.mem_cons_of_mem _ hc)) ?_ hrun
      cases e with
      | build p =>
        simp only [exec] at he
        cases hb : libvlc_media_list_flat_media_list fuel p s with
        | error err => simp [hb] at he
        | ok r =>
          simp only [hb] at he
          injection he with he
          subst he
          exact flat_media_list_keeps_nodup hb F h0
      | item_added p x => exact (add_item_grows he).nodup F h0
      | item_removed p x => exact h0.sublist ((remove_item_shrinks he).items_sublist F)
      | subitems_discovered p x => exact subitems_created_keeps_nodup he F h0
      | expand p c => exact (add_media_list_grows _ _ _ _ _ he).nodup F h0
      | collapse p c =>
        exact h0.sublist ((remove_media_list_shrinks _ _ _ _ _ he).items_sublist F)
      | source c =>
        simp only [exec] at he
        injection he with he
        subst he
        rw [hsrc c (List.mem_cons_self _ _)]
        exact h0

theorem source_add_item_items (t : State) (c x F : Nat) (h : F ≠ c) :
    items_of (source_add_item t c x) F = items_of t F := by
  unfold source_add_item
  split
  · rfl
  · have h2 : ¬ c = F := fun e => h e.symm
    simp [items_of, List.getElem?_set, h2]

/-- C3 on a concrete run: B is announced twice and appears once. -/
theorem announcements_keep_flat_list_nodup :
    run 1 announcements projection_A = .ok announcements_result ∧
    (items_of announcements_result 1).Nodup :=
  ⟨by decide,
   flat_list_never_holds_duplicates 1 announcements 1 projection_A announcements_result
    (by
      intro change h t
      simp only [announcements, List.mem_cons, List.mem_singleton, reduceCtorEq,
        Event.source.injEq, false_or, or_false, List.not_mem_nil] at h
      subst h
      exact source_add_item_items t 0 1 1 (by decide))
    (by decide) (by decide)⟩

/-! ## C4: collapse and the observers of the collapsed collection -/

theorem countP_le_of_init {α : Type} (q : α → Bool) {l1 l2 : List α} (h : l1 <+: l2) :
    l1.countP q ≤ l2.countP q :=
  h.sublist.countP_le q

/-- After `add_media_list( p, c )` the pair registered with user data `p` is
among the observers of `c`, and two more attaches on `c` are logged. -/
theorem add_media_list_attaches_pair {fuel : Nat} {p : Option Nat} {c : Nat}
    {s s1 : State} (h : add_media_list fuel p (some c) s = .ok s1) :
    (listeners_of s c ++ [added_listener p, removed_listener p]) <+: listeners_of s1 c ∧
    attach_count s.trace (Emitter.of_list c) + 2 ≤ attach_count s1.trace (Emitter.of_list c) := by
  cases fuel with
  | zero => simp [add_media_list] at h
  | succ fuel =>
    rw [add_media_list] at h
    cases hc : libvlc_media_list_count s (some c) with
    | error e => simp [hc] at h
    | ok count =>
      simp only [hc] at h
      cases hml : s.lists[c]? with
      | none => simp [libvlc_event_attach_list, hml] at h
      | some ml =>
        have hlt := getElem?_lt_of_eq_some hml
        simp only [libvlc_event_attach_list, hml, List.getElem?_set, hlt, if_true] at h
        have hg := for_loop_rel Grows grows_refl (fun _ _ _ => grows_trans) _
          (by
            intro i st st1 hb
            cases hidx : libvlc_media_list_item_at_index st (some c) i with
            | error e => simp [hidx] at hb
            | ok p_md =>
              simp only [hidx] at hb
              cases hd : deref_list st p with
              | error e => simp [hd] at hb
              | ok ml =>
                simp only [hd] at hb
                exact add_item_body_grows _ (add_media_list_grows fuel) _ _ _ _ hb)
          _ _ _ _ h
        constructor
        · have := hg.listeners_init c
          simpa [listeners_of, hml, hlt, added_listener, removed_listener] using this
        · have := countP_le_of_init (fun e =>
            match e with
            | Prim.event_attach em1 _ => decide (em1 = Emitter.of_list c)
            | _ => false) hg.trace_init
          simpa [attach_count, List.countP_append, List.countP_cons] using this

/-- C4 (the code keeps the observers): for every list argument `p` other than
`c`, when `add_media_list( p, c )` has expanded `c` and `remove_media_list( p, c )`
then collapses it, the observers of `c` are exactly those it had after the
expansion, the pair registered by the expansion included; no detach on `c` is
logged although two more attaches on `c` are.  The detaches of
`remove_media_list` go to `p->p_event_manager`. -/
theorem remove_media_list_keeps_observers_of_sublist (fuel fuel1 : Nat) (p : Option Nat)
    (c : Nat) (s s1 s2 : State) (hpc : some c ≠ p)
    (hadd : add_media_list fuel p (some c) s = .ok s1)
    (hrem : remove_media_list fuel1 p (some c) s1 = .ok s2) :
    listeners_of s2 c = listeners_of s1 c ∧
    added_listener p ∈ listeners_of s2 c ∧ removed_listener p ∈ listeners_of s2 c ∧
    detach_count s2.trace (Emitter.of_list c) = detach_count s.trace (Emitter.of_list c) ∧
    attach_count s.trace (Emitter.of_list c) + 2 ≤ attach_count s2.trace (Emitter.of_list c) := by
  have hsh := remove_media_list_shrinks _ _ _ _ _ hrem
  have hgr := add_media_list_grows _ _ _ _ _ hadd
  obtain ⟨hpre, hcount⟩ := add_media_list_attaches_pair hadd
  have hframe := hsh.listeners_frame c hpc
  refine ⟨hframe, ?_, ?_, ?_, ?_⟩
  · rw [hframe]
    exact hpre.subset (by simp)
  · rw [hframe]
    exact hpre.subset (by simp)
  · rw [hsh.detach_frame c hpc, hgr.detach_same]
  · rw [hsh.attach_same]
    exact hcount

/-- C4 at the empty root: after the expansion of the root (list 0) for the flat
list 1 and its collapse, the root still carries the pair; the two detaches were
sent to the flat list. -/
theorem collapse_of_root_keeps_pair :
    listeners_of collapsed_projection_state 0 = listeners_of expanded_projection_state 0 ∧
    added_listener (some 1) ∈ listeners_of collapsed_projection_state 0 ∧
    removed_listener (some 1) ∈ listeners_of collapsed_projection_state 0 ∧
    detach_count collapsed_projection_state.trace (Emitter.of_list 0)
      = detach_count fresh_projection_state.trace (Emitter.of_list 0) ∧
    attach_count fresh_projection_state.trace (Emitter.of_list 0) + 2
      ≤ attach_count collapsed_projection_state.trace (Emitter.of_list 0) :=
  remove_media_list_keeps_observers_of_sublist 1 1 (some 1) 0 fresh_projection_state
    expanded_projection_state collapsed_projection_state (by decide) (by decide) (by decide)

/-! ## C5: one observer pair per expansion -/

/-- C5 (amended): `add_item` on an item that owns the sub-collection `c` and
is not in the flat list `F` expands `c` again, whatever `c` already carries:
when it returns, the observers `c` had are still there, followed by one more
pair registered with user data `F`, so each of the two listeners occurs at
least once more than before, two more `libvlc_event_attach` calls on `c` are
logged, and nothing was detached from `c`.  When `c` is empty the observers of
`c` are exactly the old ones followed by that pair. -/
theorem add_item_internal_attaches_one_more_pair (s s1 : State) (p : Option Nat)
    (F x c : Nat) (ml mlF : libvlc_media_list_t) (md : libvlc_media_descriptor_t)
    (fuel : Nat)
    (hp : deref_list s p = .ok ml) (hF : ml.p_flat_mlist = some F)
    (hmlF : s.lists[F]? = some mlF) (hnot : x ∉ mlF.items)
    (hx : s.mds[x]? = some md) (hsub : md.p_subitems = some c)
    (hrun : add_item fuel p x s = .ok s1) :
    (listeners_of s c ++ [added_listener (some F), removed_listener (some F)])
      <+: listeners_of s1 c ∧
    (listeners_of s c).count (added_listener (some F)) + 1
      ≤ (listeners_of s1 c).count (added_listener (some F)) ∧
    (listeners_of s c).count (removed_listener (some F)) + 1
      ≤ (listeners_of s1 c).count (removed_listener (some F)) ∧
    attach_count s.trace (Emitter.of_list c) + 2 ≤ attach_count s1.trace (Emitter.of_list c) ∧
    detach_count s1.trace (Emitter.of_list c) = detach_count s.trace (Emitter.of_list c) ∧
    (items_of s c = [] →
      listeners_of s1 c
        = listeners_of s c ++ [added_listener (some F), removed_listener (some F)]) := by
  obtain ⟨l, hl, hml⟩ := deref_list_some hp
  subst hl
  have hcall : add_media_list fuel (some F) (some c) s = .ok s1 := by
    simpa [add_item, add_item_body, deref_list, hml, hF, libvlc_media_list_index_of_item,
      hmlF, hnot, deref_md, hx, hsub] using hrun
  obtain ⟨hpre, hcount⟩ := add_media_list_attaches_pair hcall
  refine ⟨hpre, ?_, ?_, hcount, (add_media_list_grows _ _ _ _ _ hcall).detach_same _, ?_⟩
  · have := hpre.sublist.count_le (added_listener (some F))
    simpa [List.count_append, List.count_cons, added_listener, removed_listener] using this
  · have := hpre.sublist.count_le (removed_listener (some F))
    simpa [List.count_append, List.count_cons, added_listener, removed_listener] using this
  · intro hempty
    cases fuel with
    | zero => simp [add_media_list] at hcall
    | succ fuel =>
      cases hmlc : s.lists[c]? with
      | none => simp [add_media_list, libvlc_media_list_count, deref_list, hmlc] at hcall
      | some mlc =>
        have hlt := getElem?_lt_of_eq_some hmlc
        have hnil : mlc.items = [] := by simpa [items_of, hmlc] using hempty
        simp [add_media_list, libvlc_media_list_count, deref_list, hmlc, hnil,
          libvlc_event_attach_list, List.getElem?_set, hlt, for_loop] at hcall
        subst hcall
        simp [listeners_of, hmlc, List.getElem?_set, hlt, added_listener, removed_listener]

/-- C5 (amended) at `internal_item_state`: the first announcement of P attaches
one pair to P's empty sub-collection (list 2). -/
theorem internal_item_first_expansion :
    ([] ++ [added_listener (some 1), removed_listener (some 1)])
      <+: listeners_of internal_item_expanded 2 ∧
    (listeners_of internal_item_state 2).count (added_listener (some 1)) + 1
      ≤ (listeners_of internal_item_expanded 2).count (added_listener (some 1)) ∧
    (listeners_of internal_item_state 2).count (removed_listener (some 1)) + 1
      ≤ (listeners_of internal_item_expanded 2).count (removed_listener (some 1)) ∧
    attach_count internal_item_state.trace (Emitter.of_list 2) + 2
      ≤ attach_count internal_item_expanded.trace (Emitter.of_list 2) ∧
    detach_count internal_item_expanded.trace (Emitter.of_list 2)
      = detach_count internal_item_state.trace (Emitter.of_list 2) ∧
    (items_of internal_item_state 2 = [] →
      listeners_of internal_item_expanded 2
        = [] ++ [added_listener (some 1), removed_listener (some 1)]) :=
  add_item_internal_attaches_one_more_pair internal_item_state internal_item_expanded
    (some 0) 1 0 2 _ _ _ 1 rfl rfl rfl (by decide) rfl rfl (by decide)

/-- C5 (counterexample): the internal item P is reachable through the root and
through Q's sub-collection, and `sublist_item_added` runs for it once per
branch.  Both calls of `add_item` expand P's sub-collection, list 2, which then
carries two observer pairs of the same projection, after four
`libvlc_event_attach` calls on it. -/
theorem internal_item_announced_twice_has_two_pairs :
    result_listeners
      (run 1 [.item_added (some 0) 0, .item_added (some 0) 0] internal_item_state) 2
      = some [added_listener (some 1), removed_listener (some 1),
              added_listener (some 1), removed_listener (some 1)] ∧
    result_attach_count
      (run 1 [.item_added (some 0) 0, .item_added (some 0) 0] internal_item_state)
      (Emitter.of_list 2) = some 4 := by
  decide

/-! ## C6: internal items -/

/-- C6 at scenario 3 of the specification (root [A], A owns [B], B owns [C]):
the reference walk finds the single leaf C, and the build faults instead of
returning the flat list [C]. -/
theorem nested_build_faults :
    leaves 3 scenario_nested (some 0) = [2] ∧
    libvlc_media_list_flat_media_list 5 (some 0) scenario_nested = .error .null_deref := by
  decide

/-! ## C7: removal of a non-member -/

/-- C7 (the code removes at index -1): for a leaf that is not in the flat list
`F = p_mlist->p_flat_mlist`, `remove_item` passes the `-1` returned by
`libvlc_media_list_index_of_item` on to `libvlc_media_list_remove_index`. -/
theorem remove_item_non_member_faults (s : State) (p : Option Nat) (F x : Nat)
    (ml mlF : libvlc_media_list_t) (md : libvlc_media_descriptor_t) (fuel : Nat)
    (hp : deref_list s p = .ok ml) (hF : ml.p_flat_mlist = some F)
    (hmlF : s.lists[F]? = some mlF) (hx : s.mds[x]? = some md)
    (hleaf : md.p_subitems = none) (hnot : x ∉ mlF.items) :
    libvlc_media_list_index_of_item s (some F) x = .ok (-1) ∧
    remove_item fuel p x s = .error (.invalid_index F (-1)) := by
  obtain ⟨l, hl, hml⟩ := deref_list_some hp
  subst hl
  constructor
  · simp [libvlc_media_list_index_of_item, deref_list, hmlF, hnot]
  · simp [remove_item, remove_item_body, deref_list, hml, hF,
      libvlc_media_list_index_of_item, hmlF, hnot, deref_md, hx, hleaf,
      libvlc_event_detach_md, libvlc_media_list_remove_index]

/-- C7 at `projection_A`: the leaf B is not in the flat list [A]; its removal
is an out-of-bounds removal on the flat list. -/
theorem remove_item_of_B_faults :
    libvlc_media_list_index_of_item projection_A (some 1) 1 = .ok (-1) ∧
    remove_item 1 (some 0) 1 projection_A = .error (.invalid_index 1 (-1)) :=
  remove_item_non_member_faults projection_A (some 0) 1 1 _ _ _ 1 rfl rfl rfl rfl rfl
    (by decide)

/-! ## C8: late discovery -/

/-- C8 (the code faults): `subitems_created` runs for an item `x` that has
acquired the sub-collection `S`, whose first item `c0` is a leaf that is not
yet in the list the removal looks at.  `remove_item` sees `x->p_subitems` and
collapses `S` first, so it removes `c0`, which was never inserted: the call
ends in a NULL dereference (some `p_flat_mlist` on the way is absent) or in the
removal at index `-1`, and never reaches `add_media_list`. -/
theorem subitems_created_faults (s : State) (p_user_data : Option Nat)
    (x S c0 : Nat) (rest : List Nat) (ml mlS : libvlc_media_list_t)
    (mdx mdc : libvlc_media_descriptor_t) (fuel : Nat)
    (hud : deref_list s p_user_data = .ok ml)
    (hx : s.mds[x]? = some mdx) (hsub : mdx.p_subitems = some S)
    (hS : s.lists[S]? = some mlS) (hitems : mlS.items = c0 :: rest)
    (hc : s.mds[c0]? = some mdc) (hcleaf : mdc.p_subitems = none)
    (hnew : ∀ G H, ml.p_flat_mlist = some G → flat_of s G = some H → c0 ∉ items_of s H) :
    subitems_created (fuel + 1) p_user_data x s = .error .null_deref ∨
    ∃ H, subitems_created (fuel + 1) p_user_data x s = .error (.invalid_index H (-1)) := by
  obtain ⟨l, hl, hml⟩ := deref_list_some hud
  subst hl
  have hclt := getElem?_lt_of_eq_some hc
  cases hG : ml.p_flat_mlist with
  | none =>
    left
    simp [subitems_created, remove_item, remove_item_body, remove_media_list, deref_list,
      hml, hG, deref_md, hx, hsub, libvlc_media_list_count, hS, hitems, for_loop,
      libvlc_media_list_item_at_index, hc, hcleaf, libvlc_event_detach_md]
  | some G =>
    cases hmlG : s.lists[G]? with
    | none =>
      left
      simp [subitems_created, remove_item, remove_item_body, remove_media_list, deref_list,
        hml, hG, deref_md, hx, hsub, libvlc_media_list_count, hS, hitems, for_loop,
        libvlc_media_list_item_at_index, hc, hcleaf, libvlc_event_detach_md, hmlG]
    | some mlG =>
      cases hH : mlG.p_flat_mlist with
      | none =>
        left
        simp [subitems_created, remove_item, remove_item_body, remove_media_list, deref_list,
          hml, hG, deref_md, hx, hsub, libvlc_media_list_count, hS, hitems, for_loop,
          libvlc_media_list_item_at_index, hc, hcleaf, libvlc_event_detach_md, hmlG, hH,
          libvlc_media_list_index_of_item]
      | some H =>
        cases hmlH : s.lists[H]? with
        | none =>
          left
          simp [subitems_created, remove_item, remove_item_body, remove_media_list,
            deref_list, hml, hG, deref_md, hx, hsub, libvlc_media_list_count, hS, hitems,
            for_loop, libvlc_media_list_item_at_index, hc, hcleaf, libvlc_event_detach_md,
            hmlG, hH, libvlc_media_list_index_of_item, hmlH]
        | some mlH =>
          right
          refine ⟨H, ?_⟩
          have hnot : c0 ∉ mlH.items := by
            have := hnew G H hG (by simp [flat_of, hmlG, hH])
            simpa [items_of, hmlH] using this
          simp [subitems_created, remove_item, remove_item_body, remove_media_list,
            deref_list, hml, hG, deref_md, hx, hsub, libvlc_media_list_count, hS, hitems,
            for_loop, libvlc_media_list_item_at_index, hc, hcleaf, libvlc_event_detach_md,
            hmlG, hH, libvlc_media_list_index_of_item, hmlH, hnot,
            libvlc_media_list_remove_index]

/-- C8 at scenario 2 of the specification (root [A, B], flat list [A, B], B has
just gained [C, D]): the reference walk now finds the leaves [A, C, D], and
`subitems_created` for B faults. -/
theorem discovery_of_C_D_faults :
    leaves 2 scenario_discovery (some 0) = [0, 2, 3] ∧
    (subitems_created 3 (some 0) 1 scenario_discovery = .error .null_deref ∨
     ∃ H, subitems_created 3 (some 0) 1 scenario_discovery
        = .error (.invalid_index H (-1))) :=
  ⟨by decide,
   subitems_created_faults scenario_discovery (some 0) 1 2 2 [3] _ _ _ _ 2 rfl rfl rfl rfl
     rfl rfl rfl (by
      intro G H hG hH
      have h1 : G = 1 := by
        have : (some 1 : Option Nat) = some G := hG
        injection this with this
        exact this.symm
      subst h1
      cases hH)⟩

/-! ## C9: duplicate insertion -/

/-- C9: when the list argument of `add_item` has a flat list `F`, (1) for an
item that is already in `F` the call returns the state it was given, with no
item added and no observer attached anywhere; (2) for a leaf item, a second
`add_item` returns the very state the first one returned. -/
theorem add_item_duplicate_is_noop (s : State) (p : Option Nat) (F x : Nat)
    (ml mlF : libvlc_media_list_t) (fuel : Nat)
    (hp : deref_list s p = .ok ml) (hF : ml.p_flat_mlist = some F)
    (hmlF : s.lists[F]? = some mlF) :
    (x ∈ mlF.items → add_item fuel p x s = .ok s) ∧
    (is_leaf s x → ∃ s1, add_item fuel p x s = .ok s1 ∧ add_item fuel p x s1 = .ok s1) := by
  obtain ⟨l, hl, hml⟩ := deref_list_some hp
  subst hl
  have hnoop : ∀ (t : State) (mlt mlFt : libvlc_media_list_t), t.lists[l]? = some mlt →
      mlt.p_flat_mlist = some F → t.lists[F]? = some mlFt → x ∈ mlFt.items →
      add_item fuel (some l) x t = .ok t := by
    intro t mlt mlFt h1 h2 h3 h4
    simp [add_item, add_item_body, deref_list, h1, h2, libvlc_media_list_index_of_item,
      h3, h4]
  refine ⟨hnoop s ml mlF hml hF hmlF, ?_⟩
  rintro ⟨md, hx, hleaf⟩
  by_cases hmem : x ∈ mlF.items
  · exact ⟨s, hnoop s ml mlF hml hF hmlF hmem, hnoop s ml mlF hml hF hmlF hmem⟩
  · have h1 := add_item_leaf_eq s (some l) F x ml mlF md fuel hp hF hmlF hx hleaf hmem
    refine ⟨_, h1, ?_⟩
    have hg := add_item_grows h1
    have hFlt := getElem?_lt_of_eq_some hmlF
    have hflat := hg.flat l
    have hv := hg.valid_list l
    rw [hml] at hv
    cases hl1 : (State.mk (s.lists.set F { mlF with items := mlF.items ++ [x] })
        (s.mds.set x { md with p_event_manager := md.p_event_manager ++
          [discovery_listener (some l)] })
        (s.trace ++ [Prim.event_attach (Emitter.of_md x) (discovery_listener (some l)),
                     Prim.add_media_descriptor F x])).lists[l]? with
    | none => simp [hl1] at hv
    | some ml1 =>
      have hfl1 : ml1.p_flat_mlist = some F := by
        simpa [flat_of, hl1, hml, hF] using hflat
      refine hnoop _ ml1 { mlF with items := mlF.items ++ [x] } hl1 hfl1 ?_ (by simp)
      simp [List.getElem?_set, hFlt]

/-- C9 at `projection_A`: announcing the member A changes nothing, and
announcing the leaf B twice gives what announcing it once gives. -/
theorem add_item_twice_at_projection_A :
    add_item 1 (some 0) 0 projection_A = .ok projection_A ∧
    ∃ s1, add_item 1 (some 0) 1 projection_A = .ok s1 ∧ add_item 1 (some 0) 1 s1 = .ok s1 :=
  ⟨(add_item_duplicate_is_noop projection_A (some 0) 1 0 _ _ 1 rfl rfl rfl).1 (by decide),
   (add_item_duplicate_is_noop projection_A (some 0) 1 1 _ _ 1 rfl rfl rfl).2
     ⟨leaf_md, rfl, rfl⟩⟩

/-! ## C10: lazy, once-only construction -/

theorem retain_ok {s s1 : State} {g : Option Nat}
    (h : libvlc_media_list_retain s g = .ok s1) :
    ∃ f mlf, g = some f ∧ s.lists[f]? = some mlf ∧
      s1 = { s with lists := s.lists.set f { mlf with i_refcount := mlf.i_refcount + 1 } } := by
  unfold libvlc_media_list_retain at h
  split at h
  · cases h
  · split at h
    · cases h
    · rename_i f _ mlf hmlf
      injection h with h
      exact ⟨f, mlf, rfl, hmlf, h.symm⟩

theorem new_list_flat (s : State) (l : Nat) (ml : libvlc_media_list_t)
    (hml : s.lists[l]? = some ml) :
    flat_of { (libvlc_media_list_new s).2 with
        lists := (libvlc_media_list_new s).2.lists.set l
          { ml with p_flat_mlist := some (libvlc_media_list_new s).1 } } l
      = some s.lists.length := by
  have hlt := getElem?_lt_of_eq_some hml
  have : l < s.lists.length + 1 := by omega
  simp only [flat_of, libvlc_media_list_new, List.getElem?_set, List.length_append,
    List.length_singleton]
  simp [this]

/-- A call on a root that already has a flat list `f` only retains `f`. -/
theorem flat_media_list_later_call (fuel : Nat) (t : State) (l f : Nat)
    (mlt mlf : libvlc_media_list_t) (hl : t.lists[l]? = some mlt)
    (hfl : mlt.p_flat_mlist = some f) (hf : t.lists[f]? = some mlf) :
    libvlc_media_list_flat_media_list fuel (some l) t
      = .ok (some f,
          { t with lists := t.lists.set f { mlf with i_refcount := mlf.i_refcount + 1 } }) := by
  have hflt := getElem?_lt_of_eq_some hf
  by_cases hlf : f = l
  · subst hlf
    rw [hf] at hl
    injection hl with hl
    subst hl
    simp [libvlc_media_list_flat_media_list, hf, hfl, deref_list, libvlc_media_list_retain,
      List.getElem?_set, hflt]
  · simp [libvlc_media_list_flat_media_list, hl, hfl, deref_list, libvlc_media_list_retain,
      hf, List.getElem?_set, hlf]

/-- C10: (1) when the root has no flat list yet, a returning call has
allocated a new list, run `add_media_list` for it on the root and retained it;
(2) after any returning call, every later call on the same root returns the
same flat list, and the state it leaves differs from the one it found only in
that list's reference count, which is one higher: item sequences, observers
and the log of attaches are those of before. -/
theorem flat_media_list_built_once (fuel fuel1 : Nat) (root : Option Nat) (s s1 : State)
    (F : Option Nat)
    (h : libvlc_media_list_flat_media_list fuel root s = .ok (F, s1)) :
    (∀ l ml, root = some l → s.lists[l]? = some ml → ml.p_flat_mlist = none →
      F = some s.lists.length ∧
      ∃ s2, add_media_list fuel F root
          { (libvlc_media_list_new s).2 with
            lists := (libvlc_media_list_new s).2.lists.set l
              { ml with p_flat_mlist := some (libvlc_media_list_new s).1 } } = .ok s2 ∧
        libvlc_media_list_retain s2 F = .ok s1) ∧
    ∃ f mlF, F = some f ∧ s1.lists[f]? = some mlF ∧
      libvlc_media_list_flat_media_list fuel1 root s1
        = .ok (F, { s1 with
            lists := s1.lists.set f { mlF with i_refcount := mlF.i_refcount + 1 } }) := by
  unfold libvlc_media_list_flat_media_list at h
  cases root with
  | none => simp at h
  | some l =>
    simp only at h
    cases hml : s.lists[l]? with
    | none => simp [hml] at h
    | some ml =>
      simp only [hml] at h
      cases h1 : (match ml.p_flat_mlist with
             | some _ => Except.ok s
             | none =>
               let r := libvlc_media_list_new s
               let s1 : State :=
                 { r.2 with lists := r.2.lists.set l { ml with p_flat_mlist := some r.1 } }
               add_media_list fuel (some r.1) (some l) s1) with
      | error e => simp [h1] at h
      | ok s2 =>
        simp only [h1] at h
        cases hd : deref_list s2 (some l) with
        | error e => simp [hd] at h
        | ok ml2 =>
          simp only [hd] at h
          cases hr : libvlc_media_list_retain s2 ml2.p_flat_mlist with
          | error e => simp [hr] at h
          | ok s3 =>
            simp only [hr] at h
            cases hd3 : deref_list s3 (some l) with
            | error e => simp [hd3] at h
            | ok ml3 =>
              simp only [hd3] at h
              injection h with h
              injection h with hF hs
              subst hs
              obtain ⟨f, mlf, hg, hmlf, hs3⟩ := retain_ok hr
              obtain ⟨_, hl2, hml2⟩ := deref_list_some hd
              injection hl2 with hl2
              subst hl2
              obtain ⟨_, hl3, hml3⟩ := deref_list_some hd3
              injection hl3 with hl3
              subst hl3
              have hflt := getElem?_lt_of_eq_some hmlf
              have hfl3 : ml3.p_flat_mlist = some f := by
                rw [hs3] at hml3
                by_cases hlf : f = l
                · subst hlf
                  rw [hmlf] at hml2
                  injection hml2 with hml2
                  subst hml2
                  simp [List.getElem?_set, hflt] at hml3
                  rw [← hml3]
                  exact hg
                · simp [List.getElem?_set, hlf] at hml3
                  rw [hml3] at hml2
                  injection hml2 with hml2
                  rw [hml2]
                  exact hg
              have hF2 : F = some f := by rw [← hF, hfl3]
              have hf3 : s3.lists[f]? = some { mlf with i_refcount := mlf.i_refcount + 1 } := by
                rw [hs3]
                simp [List.getElem?_set, hflt]
              refine ⟨?_, f, _, hF2, hf3, ?_⟩
              · intro l0 ml0 hl0 hml0 hnone
                injection hl0 with hl0
                subst hl0
                rw [hml] at hml0
                injection hml0 with hml0
                subst hml0
                rw [hnone] at h1
                simp only at h1
                have hgr := add_media_list_grows _ _ _ _ _ h1
                have hfl := hgr.flat l
                have hllt := getElem?_lt_of_eq_some hml
                have hlen : f = s.lists.length := by
                  have h2 : flat_of s2 l = some f := by
                    simp [flat_of, hml2, hg]
                  rw [h2, new_list_flat s l ml hml] at hfl
                  injection hfl
                subst hlen
                refine ⟨hF2, s2, ?_, ?_⟩
                · rw [hF2]
                  exact h1
                · rw [hF2, ← hg]
                  exact hr
              · rw [hF2]
                exact flat_media_list_later_call fuel1 s3 l f ml3 _ hml3 hfl3 hf3

/-- C10 at the empty root: the first call creates the flat list 1 and returns
it; the second call returns list 1 again and only raises its reference count. -/
theorem flat_media_list_twice_on_empty_root :
    libvlc_media_list_flat_media_list 1 (some 0) empty_root_state
      = .ok (some 1, built_empty_root_state) ∧
    ∃ f mlF, (some 1 : Option Nat) = some f ∧ built_empty_root_state.lists[f]? = some mlF ∧
      libvlc_media_list_flat_media_list 1 (some 0) built_empty_root_state
        = .ok (some 1, { built_empty_root_state with
            lists := built_empty_root_state.lists.set f
              { mlF with i_refcount := mlF.i_refcount + 1 } }) :=
  ⟨by decide,
   (flat_media_list_built_once 1 1 (some 0) empty_root_state built_empty_root_state (some 1)
      (by decide)).2⟩

/-! ## C11: removal of an internal item -/

/-- C11 (the code goes on after the collapse): for an item `x` that owns the
sub-collection `sub`, once `remove_media_list` on `sub` has returned the state
`s1`, `remove_item` does not stop there.  It detaches the discovery observer
of `x`, looks up `x` in the flat list `F` and removes at the index it got:
for an `x` that is not in `F` this is the removal at index `-1`; for an `x`
that is in `F` the item is erased from `F` and one more detach on `x` is
logged.  In no case is the result the state the collapse returned. -/
theorem remove_item_internal_falls_through (s s1 : State) (p : Option Nat)
    (F x sub : Nat) (md : libvlc_media_descriptor_t) (ml mlF : libvlc_media_list_t)
    (fuel : Nat)
    (hx : s.mds[x]? = some md) (hsub : md.p_subitems = some sub)
    (hcol : remove_media_list fuel p (some sub) s = .ok s1)
    (hp : deref_list s1 p = .ok ml) (hF : ml.p_flat_mlist = some F)
    (hmlF : s1.lists[F]? = some mlF) :
    remove_item fuel p x s ≠ .ok s1 ∧
    (x ∉ mlF.items → remove_item fuel p x s = .error (.invalid_index F (-1))) ∧
    (x ∈ mlF.items → ∃ s2, remove_item fuel p x s = .ok s2 ∧
      items_of s2 F = mlF.items.erase x ∧
      detach_count s2.trace (Emitter.of_md x)
        = detach_count s1.trace (Emitter.of_md x) + 1) := by
  obtain ⟨l, hl, hml⟩ := deref_list_some hp
  subst hl
  have hsh := remove_media_list_shrinks _ _ _ _ _ hcol
  have hv := hsh.valid_md x
  rw [hx] at hv
  cases hx1 : s1.mds[x]? with
  | none => simp [hx1] at hv
  | some md1 =>
    have hFlt := getElem?_lt_of_eq_some hmlF
    have hnot : x ∉ mlF.items →
        remove_item fuel (some l) x s = .error (.invalid_index F (-1)) := by
      intro hmem
      simp [remove_item, remove_item_body, deref_md, hx, hsub, hcol, libvlc_event_detach_md,
        hx1, deref_list, hml, hF, libvlc_media_list_index_of_item, hmlF, hmem,
        libvlc_media_list_remove_index]
    have hin : x ∈ mlF.items → remove_item fuel (some l) x s = .ok
        { lists := s1.lists.set F { mlF with items := mlF.items.erase x },
          mds := s1.mds.set x
            { md1 with
              p_event_manager :=
                remove_first (discovery_listener (some l)) md1.p_event_manager },
          trace := s1.trace ++
            [Prim.event_detach (Emitter.of_md x) (discovery_listener (some l)),
             Prim.remove_index F (mlF.items.indexOf x : Nat)] } := by
      intro hmem
      have hidx : mlF.items.indexOf x < mlF.items.length := List.indexOf_lt_length.mpr hmem
      simp [remove_item, remove_item_body, deref_md, hx, hsub, hcol, libvlc_event_detach_md,
        hx1, deref_list, hml, hF, libvlc_media_list_index_of_item, hmlF, hmem,
        libvlc_media_list_remove_index, discovery_listener, hidx]
    refine ⟨?_, hnot, ?_⟩
    · by_cases hmem : x ∈ mlF.items
      · rw [hin hmem]
        intro h
        injection h with h
        have := congrArg (fun t => t.trace.length) h
        simp at this
      · rw [hnot hmem]
        intro h
        cases h
    · intro hmem
      refine ⟨_, hin hmem, ?_, ?_⟩
      · simp [items_of, List.getElem?_set, hFlt]
      · simp [detach_count, List.countP_append, List.countP_cons]

/-- C11 at `internal_item_state`: the collapse of P's empty sub-collection
returns, and `remove_item( root, P )` then removes at index -1 on the flat
list, which never held P. -/
theorem remove_item_of_internal_P_faults :
    remove_media_list 1 (some 0) (some 2) internal_item_state = .ok internal_item_collapsed ∧
    remove_item 1 (some 0) 0 internal_item_state ≠ .ok internal_item_collapsed ∧
    remove_item 1 (some 0) 0 internal_item_state = .error (.invalid_index 1 (-1)) :=
  ⟨by decide,
   (remove_item_internal_falls_through internal_item_state internal_item_collapsed (some 0)
      1 0 2 _ _ _ 1 rfl rfl (by decide) rfl rfl rfl).1,
   (remove_item_internal_falls_through internal_item_state internal_item_collapsed (some 0)
      1 0 2 _ _ _ 1 rfl rfl (by decide) rfl rfl rfl).2.1 (by decide)⟩

/-! ## C16: the flat-list indirection -/

/-- The state `libvlc_media_list_flat_media_list` returns for an empty root
`root` with record `ml` that had no flat list: the new flat list sits at the
end of the heap and is held twice, the root points to it and carries the pair
registered with the new flat list as user data. -/
theorem flat_media_list_empty_root_eq (s : State) (root : Nat) (ml : libvlc_media_list_t)
    (hroot : s.lists[root]? = some ml) (hflat : ml.p_flat_mlist = none)
    (hitems : ml.items = []) (fuel : Nat) :
    libvlc_media_list_flat_media_list (fuel + 1) (some root) s = .ok (some s.lists.length,
      { lists := (s.lists.set root
            { ml with p_flat_mlist := some s.lists.length,
                      p_event_manager := ml.p_event_manager ++
                        [added_listener (some s.lists.length),
                         removed_listener (some s.lists.length)] }) ++
          [{ items := [], p_flat_mlist := none, p_event_manager := [], i_refcount := 2 }],
        mds := s.mds,
        trace := s.trace ++
          [Prim.event_attach (Emitter.of_list root) (added_listener (some s.lists.length)),
           Prim.event_attach (Emitter.of_list root)
             (removed_listener (some s.lists.length))] }) := by
  have hlt : root < s.lists.length := getElem?_lt_of_eq_some hroot
  have hne : ¬ s.lists.length = root := by omega
  simp [libvlc_media_list_flat_media_list, hroot, hflat, libvlc_media_list_new,
    add_media_list, libvlc_media_list_count, deref_list, libvlc_event_attach_list,
    List.getElem?_set, List.getElem?_append, hlt, hitems, for_loop,
    libvlc_media_list_retain, added_listener, removed_listener, hne]

/-- C16 (the code reads an absent `p_flat_mlist`): the build of an empty root
returns and registers `sublist_item_added` / `sublist_item_removed` on the
root with the new flat list as user data.  That list has no flat list of its
own, so the registered callbacks hand `add_item` and `remove_item` a list
whose `p_flat_mlist` is absent: every `sublist_item_added` reads it and
faults, and so does `sublist_item_removed` for every leaf. -/
theorem registered_callbacks_read_absent_flat_list (s : State) (root : Nat)
    (ml : libvlc_media_list_t) (hroot : s.lists[root]? = some ml)
    (hflat : ml.p_flat_mlist = none) (hitems : ml.items = []) (fuel : Nat) :
    ∃ s1, libvlc_media_list_flat_media_list (fuel + 1) (some root) s
        = .ok (some s.lists.length, s1) ∧
      flat_of s1 s.lists.length = none ∧
      added_listener (some s.lists.length) ∈ listeners_of s1 root ∧
      removed_listener (some s.lists.length) ∈ listeners_of s1 root ∧
      (∀ fuel1 x, sublist_item_added fuel1 (some s.lists.length) x s1 = .error .null_deref) ∧
      (∀ fuel1 x, is_leaf s1 x →
        sublist_item_removed fuel1 (some s.lists.length) x s1 = .error .null_deref) := by
  have hlt : root < s.lists.length := getElem?_lt_of_eq_some hroot
  refine ⟨_, flat_media_list_empty_root_eq s root ml hroot hflat hitems fuel, ?_, ?_, ?_, ?_, ?_⟩
  · simp [flat_of]
  · simp [listeners_of, List.getElem?_append, List.getElem?_set, hlt]
  · simp [listeners_of, List.getElem?_append, List.getElem?_set, hlt]
  · intro fuel1 x
    simp [sublist_item_added, add_item, add_item_body, deref_list,
      libvlc_media_list_index_of_item]
  · rintro fuel1 x ⟨md, hmd, hleaf⟩
    simp only at hmd
    simp [sublist_item_removed, remove_item, remove_item_body, deref_md, hmd, hleaf,
      libvlc_event_detach_md, deref_list, libvlc_media_list_index_of_item]

/-- C16 at the empty root: the build returns the flat list 1, and the item-added
callback it registered faults for the item 0 on reading the flat list's own
`p_flat_mlist`. -/
theorem callbacks_of_empty_root_fault :
    ∃ s1, libvlc_media_list_flat_media_list 1 (some 0) empty_root_state = .ok (some 1, s1) ∧
      flat_of s1 1 = none ∧
      added_listener (some 1) ∈ listeners_of s1 0 ∧
      removed_listener (some 1) ∈ listeners_of s1 0 ∧
      (∀ fuel1 x, sublist_item_added fuel1 (some 1) x s1 = .error .null_deref) ∧
      (∀ fuel1 x, is_leaf s1 x →
        sublist_item_removed fuel1 (some 1) x s1 = .error .null_deref) :=
  registered_callbacks_read_absent_flat_list empty_root_state 0 (source_list []) rfl rfl rfl 0

/-! ## C12: the order of removal and insertion -/

/-- The removal path keeps every reflexive, transitive relation that its three
state-changing library calls keep. -/
theorem remove_path_rel (R : State → State → Prop) (hrefl : ∀ s, R s s)
    (htrans : ∀ s s1 s2, R s s1 → R s1 s2 → R s s2)
    (hdm : ∀ s m x s1, libvlc_event_detach_md s m x = .ok s1 → R s s1)
    (hdl : ∀ s q x s1, libvlc_event_detach_list s q x = .ok s1 → R s s1)
    (hri : ∀ s q i s1, libvlc_media_list_remove_index s q i = .ok s1 → R s s1) :
    (∀ fuel p c s s1, remove_media_list fuel p c s = .ok s1 → R s s1) ∧
    (∀ fuel p x s s1, remove_item fuel p x s = .ok s1 → R s s1) := by
  have hbody : ∀ (r : Option Nat → Option Nat → State → Except Fault State),
      (∀ p c s s1, r p c s = .ok s1 → R s s1) →
      ∀ p x s s1, remove_item_body r p x s = .ok s1 → R s s1 := by
    intro r hr p x s s1 h
    unfold remove_item_body at h
    cases hmd : deref_md s x with
    | error e => simp [hmd] at h
    | ok md =>
      simp only [hmd] at h
      cases h1 : (match md.p_subitems with
          | some sub => r p (some sub) s
          | none => Except.ok s) with
      | error e => simp [h1] at h
      | ok s2 =>
        simp only [h1] at h
        have hfirst : R s s2 := by
          cases hsub : md.p_subitems with
          | some sub => rw [hsub] at h1; exact hr _ _ _ _ h1
          | none =>
            rw [hsub] at h1
            injection h1 with h1
            subst h1
            exact hrefl s
        cases hd : libvlc_event_detach_md s2 x (discovery_listener p) with
        | error e => simp [discovery_listener] at hd; simp [hd] at h
        | ok s3 =>
          have hd2 := hd
          simp only [discovery_listener] at hd2
          simp only [hd2] at h
          cases hp : deref_list s3 p with
          | error e => simp [hp] at h
          | ok ml =>
            simp only [hp] at h
            cases hi : libvlc_media_list_index_of_item s3 ml.p_flat_mlist x with
            | error e => simp [hi] at h
            | ok i =>
              simp only [hi] at h
              exact htrans _ _ _ hfirst (htrans _ _ _ (hdm _ _ _ _ hd) (hri _ _ _ _ h))
  have main : ∀ fuel p c s s1, remove_media_list fuel p c s = .ok s1 → R s s1 := by
   intro fuel
   induction fuel with
   | zero => intro p c s s1 h; simp [remove_media_list] at h
   | succ fuel ih =>
     intro p c s s1 h
     rw [remove_media_list] at h
     cases hc : libvlc_media_list_count s c with
     | error e => simp [hc] at h
     | ok count =>
       simp only [hc] at h
       cases hl : for_loop (fun i st =>
               match libvlc_media_list_item_at_index st c i with
               | .error e => .error e
               | .ok p_md => remove_item_body (remove_media_list fuel) p p_md st)
             count 0 s with
       | error e => simp [hl] at h
       | ok s2 =>
         simp only [hl] at h
         have hloop : R s s2 := by
           refine for_loop_rel R hrefl htrans _ ?_ _ _ _ _ hl
           intro i st st1 hb
           cases hidx : libvlc_media_list_item_at_index st c i with
           | error e => simp [hidx] at hb
           | ok p_md =>
             simp only [hidx] at hb
             exact hbody _ ih _ _ _ _ hb
         cases h1 : libvlc_event_detach_list s2 p (added_listener p) with
         | error e => simp [added_listener] at h1; simp [h1] at h
         | ok s3 =>
           have h1b := h1
           simp only [added_listener] at h1b
           simp only [h1b] at h
           exact htrans _ _ _ hloop (htrans _ _ _ (hdl _ _ _ _ h1) (hdl _ _ _ _ h))
  exact ⟨main, fun fuel p x s s1 h => hbody _ (main fuel) p x s s1 h⟩

/-- The insertion path keeps every reflexive, transitive relation that its three
state-changing library calls keep. -/
theorem add_path_rel (R : State → State → Prop) (hrefl : ∀ s, R s s)
    (htrans : ∀ s s1 s2, R s s1 → R s1 s2 → R s s2)
    (ham : ∀ s m x s1, libvlc_event_attach_md s m x = .ok s1 → R s s1)
    (hal : ∀ s q x s1, libvlc_event_attach_list s q x = .ok s1 → R s s1)
    (had : ∀ s q x s1, libvlc_media_list_add_media_descriptor s q x = .ok s1 → R s s1) :
    (∀ fuel p c s s1, add_media_list fuel p c s = .ok s1 → R s s1) ∧
    (∀ fuel p x s s1, add_item fuel p x s = .ok s1 → R s s1) := by
  have hbody : ∀ (r : Option Nat → Option Nat → State → Except Fault State),
      (∀ p c s s1, r p c s = .ok s1 → R s s1) →
      ∀ p x s s1, add_item_body r p x s = .ok s1 → R s s1 := by
    intro r hr p x s s1 h
    unfold add_item_body at h
    cases hp : deref_list s p with
    | error e => simp [hp] at h
    | ok ml =>
      simp only [hp] at h
      cases hi : libvlc_media_list_index_of_item s ml.p_flat_mlist x with
      | error e => simp [hi] at h
      | ok i =>
        simp only [hi] at h
        by_cases hneg : i < 0
        · simp only [hneg, if_true] at h
          cases hmd : deref_md s x with
          | error e => simp [hmd] at h
          | ok md =>
            simp only [hmd] at h
            cases hsub : md.p_subitems with
            | some sub =>
              simp only [hsub] at h
              exact hr _ _ _ _ h
            | none =>
              simp only [hsub] at h
              cases ha : libvlc_event_attach_md s x (discovery_listener p) with
              | error e => simp [discovery_listener] at ha; simp [ha] at h
              | ok s2 =>
                have ha2 := ha
                simp only [discovery_listener] at ha2
                simp only [ha2] at h
                cases hp2 : deref_list s2 p with
                | error e => simp [hp2] at h
                | ok ml2 =>
                  simp only [hp2] at h
                  exact htrans _ _ _ (ham _ _ _ _ ha) (had _ _ _ _ h)
        · simp only [hneg, if_false] at h
          injection h with h
          subst h
          exact hrefl s
  have main : ∀ fuel p c s s1, add_media_list fuel p c s = .ok s1 → R s s1 := by
   intro fuel
   induction fuel with
   | zero => intro p c s s1 h; simp [add_media_list] at h
   | succ fuel ih =>
     intro p c s s1 h
     rw [add_media_list] at h
     cases hc : libvlc_media_list_count s c with
     | error e => simp [hc] at h
     | ok count =>
       simp only [hc] at h
       cases h1 : libvlc_event_attach_list s c (added_listener p) with
       | error e => simp [added_listener] at h1; simp [h1] at h
       | ok s2 =>
         have h1b := h1
         simp only [added_listener] at h1b
         simp only [h1b] at h
         cases h2 : libvlc_event_attach_list s2 c (removed_listener p) with
         | error e => simp [removed_listener] at h2; simp [h2] at h
         | ok s3 =>
           have h2b := h2
           simp only [removed_listener] at h2b
           simp only [h2b] at h
           refine htrans _ _ _ (hal _ _ _ _ h1) (htrans _ _ _ (hal _ _ _ _ h2) ?_)
           refine for_loop_rel R hrefl htrans _ ?_ _ _ _ _ h
           intro i st st1 hb
           cases hidx : libvlc_media_list_item_at_index st c i with
           | error e => simp [hidx] at hb
           | ok p_md =>
             simp only [hidx] at hb
             cases hd : deref_list st p with
             | error e => simp [hd] at hb
             | ok ml =>
               simp only [hd] at hb
               exact hbody _ ih _ _ _ _ hb
  exact ⟨main, fun fuel p x s s1 h => hbody _ (main fuel) p x s s1 h⟩

/-- The log grows from `s` to `s1` by entries that are no insertions. -/
theorem removal_logs_no_insertion {fuel : Nat} {p : Option Nat} {x : Nat} {s s1 : State}
    (h : remove_item fuel p x s = .ok s1) :
    ∃ t, s1.trace = s.trace ++ t ∧ add_entries t = 0 := by
  refine (remove_path_rel (fun s s1 => ∃ t, s1.trace = s.trace ++ t ∧ add_entries t = 0)
    (fun s => ⟨[], by simp, rfl⟩) ?_ ?_ ?_ ?_).2 fuel p x s s1 h
  · rintro s s1 s2 ⟨t1, h1, c1⟩ ⟨t2, h2, c2⟩
    refine ⟨t1 ++ t2, by rw [h2, h1, List.append_assoc], ?_⟩
    simp only [add_entries, List.countP_append] at *
    omega
  · intro s m x s1 h
    unfold libvlc_event_detach_md at h
    split at h
    · cases h
    · injection h with h
      subst h
      exact ⟨_, rfl, by simp [add_entries]⟩
  · intro s q x s1 h
    unfold libvlc_event_detach_list at h
    split at h
    · cases h
    · split at h
      · cases h
      · injection h with h
        subst h
        exact ⟨_, rfl, by simp [add_entries]⟩
  · intro s q i s1 h
    unfold libvlc_media_list_remove_index at h
    split at h
    · cases h
    · split at h
      · cases h
      · split at h
        · injection h with h
          subst h
          exact ⟨_, rfl, by simp [add_entries]⟩
        · cases h

/-- The log grows from `s` to `s1` by entries that are no removals. -/
theorem insertion_logs_no_removal {fuel : Nat} {p c : Option Nat} {s s1 : State}
    (h : add_media_list fuel p c s = .ok s1) :
    ∃ t, s1.trace = s.trace ++ t ∧ remove_entries t = 0 := by
  refine (add_path_rel (fun s s1 => ∃ t, s1.trace = s.trace ++ t ∧ remove_entries t = 0)
    (fun s => ⟨[], by simp, rfl⟩) ?_ ?_ ?_ ?_).1 fuel p c s s1 h
  · rintro s s1 s2 ⟨t1, h1, c1⟩ ⟨t2, h2, c2⟩
    refine ⟨t1 ++ t2, by rw [h2, h1, List.append_assoc], ?_⟩
    simp only [remove_entries, List.countP_append] at *
    omega
  · intro s m x s1 h
    unfold libvlc_event_attach_md at h
    split at h
    · cases h
    · injection h with h
      subst h
      exact ⟨_, rfl, by simp [remove_entries]⟩
  · intro s q x s1 h
    unfold libvlc_event_attach_list at h
    split at h
    · cases h
    · split at h
      · cases h
      · injection h with h
        subst h
        exact ⟨_, rfl, by simp [remove_entries]⟩
  · intro s q x s1 h
    unfold libvlc_media_list_add_media_descriptor at h
    split at h
    · cases h
    · split at h
      · cases h
      · injection h with h
        subst h
        exact ⟨_, rfl, by simp [remove_entries]⟩

/-- The order of the two calls in `subitems_created`: whenever the callback
returns, what it logged is a part without insertions followed by a part
without removals. -/
theorem subitems_created_removes_then_inserts {fuel : Nat} {p : Option Nat} {x : Nat}
    {s s1 : State} (h : subitems_created fuel p x s = .ok s1) :
    ∃ t1 t2, s1.trace = s.trace ++ t1 ++ t2 ∧ add_entries t1 = 0 ∧ remove_entries t2 = 0 := by
  unfold subitems_created at h
  cases hd : deref_list s p with
  | error e => simp [hd] at h
  | ok ml =>
    simp only [hd] at h
    cases hr : remove_item fuel ml.p_flat_mlist x s with
    | error e => simp [hr] at h
    | ok s2 =>
      simp only [hr] at h
      cases hd2 : deref_list s2 p with
      | error e => simp [hd2] at h
      | ok ml2 =>
        simp only [hd2] at h
        cases hm : deref_md s2 x with
        | error e => simp [hm] at h
        | ok md =>
          simp only [hm] at h
          obtain ⟨t1, h1, c1⟩ := removal_logs_no_insertion hr
          obtain ⟨t2, h2, c2⟩ := insertion_logs_no_removal h
          exact ⟨t1, t2, by rw [h2, h1], c1, c2⟩

/-- C12 at scenario 2 of the specification (B has gained [C, D]): the removal
of B does not occur.  `subitems_created` for B faults in the collapse of
[C, D], before the removal of B and before any insertion: with the registered
root as user data on reading the flat list's absent `p_flat_mlist`, and, when
every `p_flat_mlist` resolves to the flat list, on removing C at index -1. -/
theorem discovery_does_not_remove_item :
    subitems_created 3 (some 0) 1 scenario_discovery = .error .null_deref ∧
    subitems_created 3 (some 1) 1 scenario_discovery_resolved
      = .error (.invalid_index 1 (-1)) := by
  decide

/-! ## C13: where discovered descendants are placed -/

/-- C13 (amended): the only insertion is
`libvlc_media_list_add_media_descriptor`, which appends.  `add_item` on a leaf
that is not in the flat list `F` returns with `F` equal to its previous items
followed by the leaf; and whenever `add_media_list` or `add_item` return,
every list starts with exactly the items it held before, in the same order.
No item is placed at an earlier position. -/
theorem insertion_appends_at_end (s : State) (p : Option Nat) (F x : Nat)
    (ml mlF : libvlc_media_list_t) (md : libvlc_media_descriptor_t) (fuel : Nat)
    (hp : deref_list s p = .ok ml) (hF : ml.p_flat_mlist = some F)
    (hmlF : s.lists[F]? = some mlF) (hx : s.mds[x]? = some md)
    (hleaf : md.p_subitems = none) (hnot : x ∉ mlF.items) :
    (∃ s1, add_item fuel p x s = .ok s1 ∧ items_of s1 F = items_of s F ++ [x]) ∧
    (∀ fuel1 q c s1, add_media_list fuel1 q c s = .ok s1 →
      ∀ l, items_of s l <+: items_of s1 l) ∧
    (∀ fuel1 q y s1, add_item fuel1 q y s = .ok s1 →
      ∀ l, items_of s l <+: items_of s1 l) := by
  refine ⟨⟨_, add_item_leaf_eq s p F x ml mlF md fuel hp hF hmlF hx hleaf hnot, ?_⟩, ?_, ?_⟩
  · rw [items_of_set_self hmlF]
    simp [items_of, hmlF]
  · intro fuel1 q c s1 h l
    exact (add_media_list_grows _ _ _ _ _ h).items_init l
  · intro fuel1 q y s1 h l
    exact (add_item_grows h).items_init l

/-- C13 (amended) at `projection_A`: the new leaf B is put behind A. -/
theorem leaf_B_is_appended_behind_A :
    ∃ s1, add_item 1 (some 0) 1 projection_A = .ok s1 ∧
      items_of s1 1 = items_of projection_A 1 ++ [1] :=
  (insertion_appends_at_end projection_A (some 0) 1 1 _ _ _ 1 rfl rfl rfl rfl rfl
    (by decide)).1

/-- C13 (counterexample): the flat list is [B, A] and B gains [C, D]; in place
the result would be [C, D, A].  `subitems_created` for B returns no flat list
at all, and the steps it stands for (B removed as a leaf, then C and D
inserted by `add_item`) give [A, C, D]: the descendants are behind A, not at
the position B had. -/
theorem descendants_are_not_inserted_in_place :
    items_of scenario_in_place 1 = [0, 1] ∧
    result_items
      (subitems_created 3 (some 0) 0 (source_set_subitems scenario_in_place 0 2)) 1 = none ∧
    result_items
      (run 1 [.item_removed (some 0) 0, .source (fun s => source_set_subitems s 0 2),
              .item_added (some 0) 2, .item_added (some 0) 3] scenario_in_place) 1
      = some [1, 2, 3] := by
  decide

/-! ## C14: the order of the build -/

/-- C14 at `scenario_order` (root [A, P, B], P owns [C, A]): the depth-first
walk meets A, C, A, B, whose first occurrences are [A, C, B]; the build faults
instead of returning that sequence. -/
theorem ordered_build_faults :
    leaves 2 scenario_order (some 0) = [0, 3, 0, 2] ∧
    first_occurrences (leaves 2 scenario_order (some 0)) = [0, 3, 2] ∧
    libvlc_media_list_flat_media_list 5 (some 0) scenario_order = .error .null_deref := by
  decide

/-- The traversal itself is depth-first in source order with first occurrences
kept: in `scenario_order_resolved`, where the indirection resolves,
`add_media_list( flat, root )` returns the flat list [A, C, B]. -/
theorem order_of_insertion_with_resolved_indirection :
    result_items (add_media_list 2 (some 2) (some 0) scenario_order_resolved) 2
      = some [0, 3, 2] := by
  decide

/-! ## C15: termination -/

theorem deref_list_ne_oof (s : State) (p : Option Nat) :
    deref_list s p ≠ .error .out_of_fuel := by
  unfold deref_list
  repeat (first | split | simp)

theorem deref_md_ne_oof (s : State) (x : Nat) : deref_md s x ≠ .error .out_of_fuel := by
  unfold deref_md
  repeat (first | split | simp)

theorem count_ne_oof (s : State) (p : Option Nat) :
    libvlc_media_list_count s p ≠ .error .out_of_fuel := by
  unfold libvlc_media_list_count
  cases h : deref_list s p with
  | error e =>
    simp only
    intro he
    injection he with he
    subst he
    exact deref_list_ne_oof s p h
  | ok ml =>
    simp only
    simp

theorem item_at_index_ne_oof (s : State) (p : Option Nat) (i : Nat) :
    libvlc_media_list_item_at_index s p i ≠ .error .out_of_fuel := by
  unfold libvlc_media_list_item_at_index
  cases h : deref_list s p with
  | error e =>
    simp only
    intro he
    injection he with he
    subst he
    exact deref_list_ne_oof s p h
  | ok ml =>
    simp only
    split <;> simp

theorem index_of_item_ne_oof (s : State) (p : Option Nat) (x : Nat) :
    libvlc_media_list_index_of_item s p x ≠ .error .out_of_fuel := by
  unfold libvlc_media_list_index_of_item
  cases h : deref_list s p with
  | error e =>
    simp only
    intro he
    injection he with he
    subst he
    exact deref_list_ne_oof s p h
  | ok ml =>
    simp only
    split <;> simp

theorem add_media_descriptor_ne_oof (s : State) (p : Option Nat) (x : Nat) :
    libvlc_media_list_add_media_descriptor s p x ≠ .error .out_of_fuel := by
  unfold libvlc_media_list_add_media_descriptor
  repeat (first | split | simp)

theorem remove_index_ne_oof (s : State) (p : Option Nat) (i : Int) :
    libvlc_media_list_remove_index s p i ≠ .error .out_of_fuel := by
  unfold libvlc_media_list_remove_index
  repeat (first | split | simp)

theorem attach_list_ne_oof (s : State) (p : Option Nat) (x : libvlc_event_listener_t) :
    libvlc_event_attach_list s p x ≠ .error .out_of_fuel := by
  unfold libvlc_event_attach_list
  repeat (first | split | simp)

theorem detach_list_ne_oof (s : State) (p : Option Nat) (x : libvlc_event_listener_t) :
    libvlc_event_detach_list s p x ≠ .error .out_of_fuel := by
  unfold libvlc_event_detach_list
  repeat (first | split | simp)

theorem attach_md_ne_oof (s : State) (m : Nat) (x : libvlc_event_listener_t) :
    libvlc_event_attach_md s m x ≠ .error .out_of_fuel := by
  unfold libvlc_event_attach_md
  repeat (first | split | simp)

theorem detach_md_ne_oof (s : State) (m : Nat) (x : libvlc_event_listener_t) :
    libvlc_event_detach_md s m x ≠ .error .out_of_fuel := by
  unfold libvlc_event_detach_md
  repeat (first | split | simp)

/-- A loop never ends in the fault `e` when its body never does, as long as an
invariant of the states holds. -/
theorem for_loop_never (e : Fault) (I : State → Prop)
    (body : Nat → State → Except Fault State)
    (hbody : ∀ i s, I s → body i s ≠ .error e ∧ ∀ s1, body i s = .ok s1 → I s1) :
    ∀ n i s, I s → for_loop body n i s ≠ .error e := by
  intro n
  induction n with
  | zero => intro i s _; simp [for_loop]
  | succ n ih =>
    intro i s hI
    rw [for_loop]
    cases hb : body i s with
    | error e1 =>
      simp only
      intro h
      injection h with h
      subst h
      exact (hbody i s hI).1 hb
    | ok s1 =>
      simp only
      exact ih (i + 1) s1 ((hbody i s hI).2 s1 hb)

/-- Two loops agree when their bodies agree wherever the first body does not
end in the fault `e`, provided the first loop does not end in `e`. -/
theorem for_loop_agree (e : Fault) (body1 body2 : Nat → State → Except Fault State)
    (hbody : ∀ i s, body1 i s ≠ .error e → body2 i s = body1 i s) :
    ∀ n i s, for_loop body1 n i s ≠ .error e →
      for_loop body2 n i s = for_loop body1 n i s := by
  intro n
  induction n with
  | zero => intro i s _; simp [for_loop]
  | succ n ih =>
    intro i s h
    rw [for_loop] at h
    rw [for_loop, for_loop]
    cases hb : body1 i s with
    | error e1 =>
      rw [hb] at h
      simp only at h
      have hne : body1 i s ≠ .error e := by
        rw [hb]
        intro h2
        injection h2 with h2
        subst h2
        exact h rfl
      rw [hbody i s hne, hb]
    | ok s1 =>
      rw [hb] at h
      simp only at h
      have hne : body1 i s ≠ .error e := by rw [hb]; simp
      rw [hbody i s hne, hb]
      simp only
      exact ih (i + 1) s1 h

theorem nesting_within_keeps {s s1 : State}
    (hsub : ∀ m, subitems_of s1 m = subitems_of s m)
    (hitems : ∀ l x, x ∈ items_of s1 l → x ∈ items_of s l ∨ subitems_of s x = none) :
    ∀ d l, nesting_within d s l = true → nesting_within d s1 l = true := by
  intro d
  induction d with
  | zero => intro l h; simp [nesting_within] at h
  | succ d ih =>
    intro l h
    simp only [nesting_within, List.all_eq_true] at h ⊢
    intro x hx
    rw [hsub x]
    rcases hitems l x hx with hold | hleaf
    · have := h x hold
      cases hs : subitems_of s x with
      | none => rfl
      | some sub =>
        rw [hs] at this
        exact ih sub this
    · rw [hleaf]

theorem nesting_within_of_shrinks {p : Option Nat} {s s1 : State} (h : Shrinks p s s1)
    (d l : Nat) (hb : nesting_within d s l = true) : nesting_within d s1 l = true :=
  nesting_within_keeps h.subitems
    (fun l _ hx => Or.inl ((h.items_sublist l).subset hx)) d l hb

theorem nesting_within_of_grows {s s1 : State} (h : Grows s s1)
    (d l : Nat) (hb : nesting_within d s l = true) : nesting_within d s1 l = true :=
  nesting_within_keeps h.subitems
    (fun l x hx => by
      rcases h.new_leaf l x hx with hold | ⟨md, hmd, hleaf⟩
      · exact Or.inl hold
      · exact Or.inr (by simp [subitems_of, hmd, hleaf])) d l hb

theorem item_at_index_mem {s : State} {c i x : Nat}
    (h : libvlc_media_list_item_at_index s (some c) i = .ok x) : x ∈ items_of s c := by
  unfold libvlc_media_list_item_at_index deref_list at h
  cases hc : s.lists[c]? with
  | none => simp [hc] at h
  | some ml =>
    simp only [hc] at h
    cases hi : ml.items[i]? with
    | none => simp [hi] at h
    | some y =>
      simp only [hi] at h
      injection h with h
      subst h
      simp only [items_of, hc]
      exact List.getElem?_mem hi

theorem subitems_of_deref_md {s : State} {x : Nat} {md : libvlc_media_descriptor_t}
    (h : deref_md s x = .ok md) : subitems_of s x = md.p_subitems := by
  simp [subitems_of, deref_md_some h]

/-- The body of `remove_item` runs out of fuel only inside its callee. -/
theorem remove_item_body_ne_oof
    (r : Option Nat → Option Nat → State → Except Fault State) (p : Option Nat) (x : Nat)
    (s : State)
    (hr : ∀ sub, subitems_of s x = some sub → r p (some sub) s ≠ .error .out_of_fuel) :
    remove_item_body r p x s ≠ .error .out_of_fuel := by
  unfold remove_item_body
  cases hmd : deref_md s x with
  | error e =>
    simp only
    intro h
    injection h with h
    subst h
    exact deref_md_ne_oof s x hmd
  | ok md =>
    simp only
    have hfirst : (match md.p_subitems with
        | some sub => r p (some sub) s
        | none => Except.ok s) ≠ .error .out_of_fuel := by
      cases hsub : md.p_subitems with
      | some sub =>
        simp only
        exact hr sub (by rw [subitems_of_deref_md hmd, hsub])
      | none => simp
    cases h1 : (match md.p_subitems with
        | some sub => r p (some sub) s
        | none => Except.ok s) with
    | error e =>
      simp only
      intro h
      injection h with h
      subst h
      exact hfirst h1
    | ok s2 =>
      simp only
      cases hd : libvlc_event_detach_md s2 x
          ⟨.libvlc_MediaDescriptorSubItemAdded, .subitems_created, p⟩ with
      | error e =>
        simp only
        intro h
        injection h with h
        subst h
        exact detach_md_ne_oof _ _ _ hd
      | ok s3 =>
        simp only
        cases hp : deref_list s3 p with
        | error e =>
          simp only
          intro h
          injection h with h
          subst h
          exact deref_list_ne_oof _ _ hp
        | ok ml =>
          simp only
          cases hi : libvlc_media_list_index_of_item s3 ml.p_flat_mlist x with
          | error e =>
            simp only
            intro h
            injection h with h
            subst h
            exact index_of_item_ne_oof _ _ _ hi
          | ok i =>
            simp only
            exact remove_index_ne_oof _ _ _

/-- On a hierarchy that nests fewer than `d` lists deep, `remove_media_list`
with fuel `d` or more does not run out of fuel. -/
theorem remove_media_list_ne_oof :
    ∀ d s c, nesting_within d s c = true → ∀ fuel p, d ≤ fuel →
      remove_media_list fuel p (some c) s ≠ .error .out_of_fuel := by
  intro d
  induction d with
  | zero => intro s c h; simp [nesting_within] at h
  | succ d ih =>
    intro s c hb fuel p hf
    obtain ⟨f, rfl⟩ : ∃ f, fuel = f + 1 := ⟨fuel - 1, by omega⟩
    have hfd : d ≤ f := by omega
    rw [remove_media_list]
    cases hc : libvlc_media_list_count s (some c) with
    | error e =>
      simp only
      intro h
      injection h with h
      subst h
      exact count_ne_oof _ _ hc
    | ok count =>
      simp only
      have hloop := for_loop_never .out_of_fuel (fun st => Shrinks p s st)
        (fun i st =>
          match libvlc_media_list_item_at_index st (some c) i with
          | .error e => .error e
          | .ok p_md => remove_item_body (remove_media_list f) p p_md st)
        (by
          intro i st hI
          cases hidx : libvlc_media_list_item_at_index st (some c) i with
          | error e =>
            simp only [hidx]
            refine ⟨?_, fun s1 h => by cases h⟩
            intro h
            injection h with h
            subst h
            exact item_at_index_ne_oof _ _ _ hidx
          | ok x =>
            simp only [hidx]
            constructor
            · apply remove_item_body_ne_oof
              intro sub hsub
              have hb1 := nesting_within_of_shrinks hI (d + 1) c hb
              simp only [nesting_within, List.all_eq_true] at hb1
              have := hb1 x (item_at_index_mem hidx)
              rw [hsub] at this
              exact ih st sub this f p hfd
            · intro s1 h1
              exact shrinks_trans hI (remove_item_body_shrinks p _
                (fun c s s1 => remove_media_list_shrinks f p c s s1) _ _ _ h1))
        count 0 s (shrinks_refl p s)
      cases hl : for_loop (fun i st =>
          match libvlc_media_list_item_at_index st (some c) i with
          | .error e => .error e
          | .ok p_md => remove_item_body (remove_media_list f) p p_md st) count 0 s with
      | error e =>
        simp only
        intro h
        injection h with h
        subst h
        exact hloop hl
      | ok s2 =>
        simp only
        cases h1 : libvlc_event_detach_list s2 p
            ⟨.libvlc_MediaListItemAdded, .sublist_item_added, p⟩ with
        | error e =>
          simp only
          intro h
          injection h with h
          subst h
          exact detach_list_ne_oof _ _ _ h1
        | ok s3 =>
          simp only
          exact detach_list_ne_oof _ _ _

/-- The body of `add_item` runs out of fuel only inside its callee. -/
theorem add_item_body_ne_oof
    (r : Option Nat → Option Nat → State → Except Fault State) (p : Option Nat) (x : Nat)
    (s : State)
    (hr : ∀ q sub, subitems_of s x = some sub → r q (some sub) s ≠ .error .out_of_fuel) :
    add_item_body r p x s ≠ .error .out_of_fuel := by
  unfold add_item_body
  cases hp : deref_list s p with
  | error e =>
    simp only
    intro h
    injection h with h
    subst h
    exact deref_list_ne_oof _ _ hp
  | ok ml =>
    simp only
    cases hi : libvlc_media_list_index_of_item s ml.p_flat_mlist x with
    | error e =>
      simp only
      intro h
      injection h with h
      subst h
      exact index_of_item_ne_oof _ _ _ hi
    | ok i =>
      simp only
      by_cases hneg : i < 0
      · simp only [hneg, if_true]
        cases hmd : deref_md s x with
        | error e =>
          simp only
          intro h
          injection h with h
          subst h
          exact deref_md_ne_oof _ _ hmd
        | ok md =>
          simp only
          cases hsub : md.p_subitems with
          | some sub =>
            simp only
            exact hr _ sub (by rw [subitems_of_deref_md hmd, hsub])
          | none =>
            simp only
            cases ha : libvlc_event_attach_md s x
                ⟨.libvlc_MediaDescriptorSubItemAdded, .subitems_created, p⟩ with
            | error e =>
              simp only
              intro h
              injection h with h
              subst h
              exact attach_md_ne_oof _ _ _ ha
            | ok s2 =>
              simp only
              cases hp2 : deref_list s2 p with
              | error e =>
                simp only
                intro h
                injection h with h
                subst h
                exact deref_list_ne_oof _ _ hp2
              | ok ml2 =>
                simp only
                exact add_media_descriptor_ne_oof _ _ _
      · simp [hneg]

/-- On a hierarchy that nests fewer than `d` lists deep, `add_media_list` with
fuel `d` or more does not run out of fuel. -/
theorem add_media_list_ne_oof :
    ∀ d s c, nesting_within d s c = true → ∀ fuel p, d ≤ fuel →
      add_media_list fuel p (some c) s ≠ .error .out_of_fuel := by
  intro d
  induction d with
  | zero => intro s c h; simp [nesting_within] at h
  | succ d ih =>
    intro s c hb fuel p hf
    obtain ⟨f, rfl⟩ : ∃ f, fuel = f + 1 := ⟨fuel - 1, by omega⟩
    have hfd : d ≤ f := by omega
    rw [add_media_list]
    cases hc : libvlc_media_list_count s (some c) with
    | error e =>
      simp only
      intro h
      injection h with h
      subst h
      exact count_ne_oof _ _ hc
    | ok count =>
      simp only
      cases h1 : libvlc_event_attach_list s (some c)
          ⟨.libvlc_MediaListItemAdded, .sublist_item_added, p⟩ with
      | error e =>
        simp only
        intro h
        injection h with h
        subst h
        exact attach_list_ne_oof _ _ _ h1
      | ok s2 =>
        simp only
        cases h2 : libvlc_event_attach_list s2 (some c)
            ⟨.libvlc_MediaListItemDeleted, .sublist_item_removed, p⟩ with
        | error e =>
          simp only
          intro h
          injection h with h
          subst h
          exact attach_list_ne_oof _ _ _ h2
        | ok s3 =>
          simp only
          have hg3 : Grows s s3 := grows_trans (attach_list_grows h1) (attach_list_grows h2)
          refine for_loop_never .out_of_fuel (fun st => Grows s st) _ ?_ count 0 s3 hg3
          intro i st hI
          cases hidx : libvlc_media_list_item_at_index st (some c) i with
          | error e =>
            simp only [hidx]
            refine ⟨?_, fun s1 h => by cases h⟩
            intro h
            injection h with h
            subst h
            exact item_at_index_ne_oof _ _ _ hidx
          | ok x =>
            simp only [hidx]
            cases hd : deref_list st p with
            | error e =>
              simp only [hd]
              refine ⟨?_, fun s1 h => by cases h⟩
              intro h
              injection h with h
              subst h
              exact deref_list_ne_oof _ _ hd
            | ok ml =>
              simp only [hd]
              constructor
              · apply add_item_body_ne_oof
                intro q sub hsub
                have hb1 := nesting_within_of_grows hI (d + 1) c hb
                simp only [nesting_within, List.all_eq_true] at hb1
                have := hb1 x (item_at_index_mem hidx)
                rw [hsub] at this
                exact ih st sub this f q hfd
              · intro s1 hs1
                exact grows_trans hI
                  (add_item_body_grows _ (add_media_list_grows f) _ _ _ _ hs1)

theorem remove_item_body_agree
    (r1 r2 : Option Nat → Option Nat → State → Except Fault State) (p : Option Nat)
    (x : Nat) (s : State)
    (hr : ∀ c, r1 p c s ≠ .error .out_of_fuel → r2 p c s = r1 p c s)
    (h : remove_item_body r1 p x s ≠ .error .out_of_fuel) :
    remove_item_body r2 p x s = remove_item_body r1 p x s := by
  unfold remove_item_body at h ⊢
  cases hmd : deref_md s x with
  | error e => rfl
  | ok md =>
    simp only [hmd] at h ⊢
    cases hsub : md.p_subitems with
    | none => rfl
    | some sub =>
      simp only [hsub] at h ⊢
      have key : r2 p (some sub) s = r1 p (some sub) s :=
        hr _ (fun hoof => h (by simp only [hoof]))
      rw [key]

/-- More fuel does not change what `remove_media_list` gives once it did not
run out of fuel. -/
theorem remove_media_list_fuel_succ :
    ∀ n p c s, remove_media_list n p c s ≠ .error .out_of_fuel →
      remove_media_list (n + 1) p c s = remove_media_list n p c s := by
  intro n
  induction n with
  | zero => intro p c s h; simp [remove_media_list] at h
  | succ n ih =>
    intro p c s h
    rw [remove_media_list] at h
    conv_lhs => rw [remove_media_list]
    conv_rhs => rw [remove_media_list]
    cases hc : libvlc_media_list_count s c with
    | error e => rfl
    | ok count =>
      simp only [hc] at h ⊢
      have hloop : for_loop (fun i st =>
            match libvlc_media_list_item_at_index st c i with
            | .error e => .error e
            | .ok p_md => remove_item_body (remove_media_list (n + 1)) p p_md st) count 0 s
          = for_loop (fun i st =>
            match libvlc_media_list_item_at_index st c i with
            | .error e => .error e
            | .ok p_md => remove_item_body (remove_media_list n) p p_md st) count 0 s := by
        apply for_loop_agree .out_of_fuel
        · intro i st hb
          cases hidx : libvlc_media_list_item_at_index st c i with
          | error e => simp only
          | ok x =>
            simp only [hidx] at hb ⊢
            exact remove_item_body_agree _ _ p x st (fun c hc => ih p c st hc) hb
        · intro hoof
          exact h (by simp only [hoof])
      rw [hloop]

theorem remove_media_list_fuel_stable (d : Nat) (s : State) (c : Nat)
    (hb : nesting_within d s c = true) (p : Option Nat) :
    ∀ k, remove_media_list (d + k) p (some c) s = remove_media_list d p (some c) s := by
  intro k
  induction k with
  | zero => rfl
  | succ k ih =>
    rw [← ih]
    exact remove_media_list_fuel_succ (d + k) p (some c) s
      (remove_media_list_ne_oof d s c hb (d + k) p (by omega))

theorem add_item_body_agree
    (r1 r2 : Option Nat → Option Nat → State → Except Fault State) (p : Option Nat)
    (x : Nat) (s : State)
    (hr : ∀ q c, r1 q c s ≠ .error .out_of_fuel → r2 q c s = r1 q c s)
    (h : add_item_body r1 p x s ≠ .error .out_of_fuel) :
    add_item_body r2 p x s = add_item_body r1 p x s := by
  unfold add_item_body at h ⊢
  cases hp : deref_list s p with
  | error e => rfl
  | ok ml =>
    simp only [hp] at h ⊢
    cases hi : libvlc_media_list_index_of_item s ml.p_flat_mlist x with
    | error e => rfl
    | ok i =>
      simp only [hi] at h ⊢
      by_cases hneg : i < 0
      · simp only [hneg, if_true] at h ⊢
        cases hmd : deref_md s x with
        | error e => rfl
        | ok md =>
          simp only [hmd] at h ⊢
          cases hsub : md.p_subitems with
          | none => rfl
          | some sub =>
            simp only [hsub] at h ⊢
            exact hr _ _ h
      · simp only [hneg, if_false]

/-- More fuel does not change what `add_media_list` gives once it did not run
out of fuel. -/
theorem add_media_list_fuel_succ :
    ∀ n p c s, add_media_list n p c s ≠ .error .out_of_fuel →
      add_media_list (n + 1) p c s = add_media_list n p c s := by
  intro n
  induction n with
  | zero => intro p c s h; simp [add_media_list] at h
  | succ n ih =>
    intro p c s h
    rw [add_media_list] at h
    conv_lhs => rw [add_media_list]
    conv_rhs => rw [add_media_list]
    cases hc : libvlc_media_list_count s c with
    | error e => rfl
    | ok count =>
      simp only [hc] at h ⊢
      cases h1 : libvlc_event_attach_list s c
          ⟨.libvlc_MediaListItemAdded, .sublist_item_added, p⟩ with
      | error e => rfl
      | ok s2 =>
        simp only [h1] at h ⊢
        cases h2 : libvlc_event_attach_list s2 c
            ⟨.libvlc_MediaListItemDeleted, .sublist_item_removed, p⟩ with
        | error e => rfl
        | ok s3 =>
          simp only [h2] at h ⊢
          apply for_loop_agree .out_of_fuel
          · intro i st hbd
            cases hidx : libvlc_media_list_item_at_index st c i with
            | error e => simp only
            | ok x =>
              simp only [hidx] at hbd ⊢
              cases hd : deref_list st p with
              | error e => simp only
              | ok ml =>
                simp only [hd] at hbd ⊢
                exact add_item_body_agree _ _ _ x st (fun q c hc => ih q c st hc) hbd
          · exact h

theorem add_media_list_fuel_stable (d : Nat) (s : State) (c : Nat)
    (hb : nesting_within d s c = true) (p : Option Nat) :
    ∀ k, add_media_list (d + k) p (some c) s = add_media_list d p (some c) s := by
  intro k
  induction k with
  | zero => rfl
  | succ k ih =>
    rw [← ih]
    exact add_media_list_fuel_succ (d + k) p (some c) s
      (add_media_list_ne_oof d s c hb (d + k) p (by omega))

/-- A sub-collection whose first item owns that same sub-collection: the
removal recursion re-enters it before changing anything, whatever the fuel. -/
theorem remove_media_list_on_cycle (s : State) (S Q : Nat) (rest : List Nat)
    (mlS : libvlc_media_list_t) (mdQ : libvlc_media_descriptor_t)
    (hS : s.lists[S]? = some mlS) (hitems : mlS.items = Q :: rest)
    (hQ : s.mds[Q]? = some mdQ) (hsub : mdQ.p_subitems = some S) (p : Option Nat) :
    ∀ fuel, remove_media_list fuel p (some S) s = .error .out_of_fuel := by
  intro fuel
  induction fuel with
  | zero => rfl
  | succ n ih =>
    rw [remove_media_list]
    simp [libvlc_media_list_count, deref_list, hS, hitems, for_loop,
      libvlc_media_list_item_at_index, remove_item_body, deref_md, hQ, hsub, ih]

/-- C15 (amended): on a hierarchy below `c` that nests fewer than `d` lists
deep (so it is finite and has no cycle), `add_media_list` and
`remove_media_list` terminate for every list argument: no fuel from `d` on
runs out, and every such fuel gives the result that fuel `d` gives. -/
theorem recursions_terminate_on_acyclic_hierarchies (d : Nat) (s : State) (c : Nat)
    (hb : nesting_within d s c = true) (p : Option Nat) (fuel : Nat) (hf : d ≤ fuel) :
    add_media_list fuel p (some c) s ≠ .error .out_of_fuel ∧
    add_media_list fuel p (some c) s = add_media_list d p (some c) s ∧
    remove_media_list fuel p (some c) s ≠ .error .out_of_fuel ∧
    remove_media_list fuel p (some c) s = remove_media_list d p (some c) s := by
  obtain ⟨k, rfl⟩ : ∃ k, fuel = d + k := ⟨fuel - d, by omega⟩
  exact ⟨add_media_list_ne_oof d s c hb (d + k) p hf,
    add_media_list_fuel_stable d s c hb p k,
    remove_media_list_ne_oof d s c hb (d + k) p hf,
    remove_media_list_fuel_stable d s c hb p k⟩

/-- C15 (amended) at scenario 3 of the specification, which nests three lists
deep: for the root, fuel 7 does not run out and gives what fuel 3 gives. -/
theorem recursions_terminate_on_scenario_nested :
    add_media_list 7 (some 0) (some 0) scenario_nested ≠ .error .out_of_fuel ∧
    add_media_list 7 (some 0) (some 0) scenario_nested
      = add_media_list 3 (some 0) (some 0) scenario_nested ∧
    remove_media_list 7 (some 0) (some 0) scenario_nested ≠ .error .out_of_fuel ∧
    remove_media_list 7 (some 0) (some 0) scenario_nested
      = remove_media_list 3 (some 0) (some 0) scenario_nested :=
  recursions_terminate_on_acyclic_hierarchies 3 scenario_nested 0 (by decide) (some 0) 7
    (by decide)

/-- C15 (counterexample): in `scenario_cycle` (P owns [Q], Q owns that same
list) no amount of fuel lets `remove_item( root, P )` come to an end: the
recursion `remove_item` / `remove_media_list` re-enters Q's sub-collection
without having changed anything. -/
theorem removal_recursion_never_ends_on_cycle :
    ¬ ∃ fuel, remove_item fuel (some 0) 0 scenario_cycle ≠ .error .out_of_fuel := by
  rintro ⟨fuel, h⟩
  apply h
  have hc := remove_media_list_on_cycle scenario_cycle 2 1 [] (source_list [1])
    { p_subitems := some 2, p_event_manager := [] } rfl rfl rfl rfl (some 0) fuel
  simp only [remove_item, remove_item_body]
  have hmd : deref_md scenario_cycle 0
      = .ok { p_subitems := some 2, p_event_manager := [] } := rfl
  simp only [hmd, hc]

/-! ## C17: discovery observers and membership -/

theorem attach_list_keeps {s s1 : State} {q : Option Nat} {x : libvlc_event_listener_t}
    (h : libvlc_event_attach_list s q x = .ok s1) :
    (∀ l, items_of s1 l = items_of s l) ∧ (∀ l, flat_of s1 l = flat_of s l) ∧
    s1.mds = s.mds := by
  unfold libvlc_event_attach_list at h
  split at h
  · cases h
  · split at h
    · cases h
    · rename_i l _ ml hml
      injection h with h
      subst h
      have hlt := getElem?_lt_of_eq_some hml
      refine ⟨?_, ?_, rfl⟩
      · intro k; simp [items_of, List.getElem?_set]; split_ifs <;> simp_all
      · intro k; simp [flat_of, List.getElem?_set]; split_ifs <;> simp_all

theorem detach_list_keeps {s s1 : State} {q : Option Nat} {x : libvlc_event_listener_t}
    (h : libvlc_event_detach_list s q x = .ok s1) :
    (∀ l, items_of s1 l = items_of s l) ∧ (∀ l, flat_of s1 l = flat_of s l) ∧
    s1.mds = s.mds := by
  unfold libvlc_event_detach_list at h
  split at h
  · cases h
  · split at h
    · cases h
    · rename_i l _ ml hml
      injection h with h
      subst h
      have hlt := getElem?_lt_of_eq_some hml
      refine ⟨?_, ?_, rfl⟩
      · intro k; simp [items_of, List.getElem?_set]; split_ifs <;> simp_all
      · intro k; simp [flat_of, List.getElem?_set]; split_ifs <;> simp_all

theorem tracks_of_keeps {P F : Nat} {s s1 : State} (h : Tracks P F s)
    (hitems : ∀ l, items_of s1 l = items_of s l) (hflat : ∀ l, flat_of s1 l = flat_of s l)
    (hmds : s1.mds = s.mds) : Tracks P F s1 := by
  constructor
  · rw [hflat]; exact h.flat_P
  · rw [hflat]; exact h.flat_F
  · rw [hitems]; exact h.nodup
  · intro x
    rw [hitems]
    simp only [md_listeners_of, hmds]
    exact h.observers x

/-- With a flat list `F` that has no flat list of its own, `add_media_list(
F, c )` returns only when `c` is empty, and then changes no item sequence, no
`p_flat_mlist` and no media descriptor. -/
theorem add_media_list_on_plain_flat_list {fuel : Nat} {F : Nat} {c : Option Nat}
    {s s1 : State} (hFF : flat_of s F = none)
    (h : add_media_list fuel (some F) c s = .ok s1) :
    (∀ l, items_of s1 l = items_of s l) ∧ (∀ l, flat_of s1 l = flat_of s l) ∧
    s1.mds = s.mds := by
  cases fuel with
  | zero => simp [add_media_list] at h
  | succ fuel =>
    rw [add_media_list] at h
    cases hc : libvlc_media_list_count s c with
    | error e => simp [hc] at h
    | ok count =>
      simp only [hc] at h
      cases h1 : libvlc_event_attach_list s c (added_listener (some F)) with
      | error e => simp [added_listener] at h1; simp [h1] at h
      | ok s2 =>
        have h1b := h1
        simp only [added_listener] at h1b
        simp only [h1b] at h
        cases h2 : libvlc_event_attach_list s2 c (removed_listener (some F)) with
        | error e => simp [removed_listener] at h2; simp [h2] at h
        | ok s3 =>
          have h2b := h2
          simp only [removed_listener] at h2b
          simp only [h2b] at h
          obtain ⟨hi1, hf1, hm1⟩ := attach_list_keeps h1
          obtain ⟨hi2, hf2, hm2⟩ := attach_list_keeps h2
          cases count with
          | zero =>
            simp only [for_loop] at h
            injection h with h
            subst h
            exact ⟨fun l => by rw [hi2, hi1], fun l => by rw [hf2, hf1], by rw [hm2, hm1]⟩
          | succ k =>
            exfalso
            rw [for_loop] at h
            have hF3 : flat_of s3 F = none := by rw [hf2, hf1]; exact hFF
            cases hidx : libvlc_media_list_item_at_index s3 c 0 with
            | error e => simp [hidx] at h
            | ok x =>
              simp only [hidx] at h
              cases hd : deref_list s3 (some F) with
              | error e => simp [hd] at h
              | ok ml =>
                simp only [hd] at h
                obtain ⟨_, hl, hml⟩ := deref_list_some hd
                injection hl with hl
                subst hl
                have hnone : ml.p_flat_mlist = none := by
                  simpa [flat_of, hml] using hF3
                simp [hnone, add_item_body, deref_list] at h

/-- `add_item` with the list argument `P` keeps `Tracks P F`. -/
theorem add_item_tracks {fuel : Nat} {P F x : Nat} {s s1 : State} (hT : Tracks P F s)
    (h : add_item fuel (some P) x s = .ok s1) : Tracks P F s1 := by
  have hP := hT.flat_P
  cases hml : s.lists[P]? with
  | none => simp [flat_of, hml] at hP
  | some ml =>
    have hF : ml.p_flat_mlist = some F := by simpa [flat_of, hml] using hP
    have hp : deref_list s (some P) = .ok ml := by simp [deref_list, hml]
    cases hmlF : s.lists[F]? with
    | none =>
      simp [add_item, add_item_body, deref_list, hml, hF, libvlc_media_list_index_of_item,
        hmlF] at h
    | some mlF =>
      have hitems : items_of s F = mlF.items := by simp [items_of, hmlF]
      by_cases hmem : x ∈ mlF.items
      · have : add_item fuel (some P) x s = .ok s := by
          simp [add_item, add_item_body, deref_list, hml, hF,
            libvlc_media_list_index_of_item, hmlF, hmem]
        rw [this] at h
        injection h with h
        subst h
        exact hT
      · cases hx : s.mds[x]? with
        | none =>
          simp [add_item, add_item_body, deref_list, hml, hF,
            libvlc_media_list_index_of_item, hmlF, hmem, deref_md, hx] at h
        | some md =>
          cases hsub : md.p_subitems with
          | some sub =>
            have hcall : add_media_list fuel (some F) (some sub) s = .ok s1 := by
              simpa [add_item, add_item_body, deref_list, hml, hF,
                libvlc_media_list_index_of_item, hmlF, hmem, deref_md, hx, hsub] using h
            obtain ⟨h1, h2, h3⟩ := add_media_list_on_plain_flat_list hT.flat_F hcall
            exact tracks_of_keeps hT h1 h2 h3
          | none =>
            rw [add_item_leaf_eq s (some P) F x ml mlF md fuel hp hF hmlF hx hsub hmem] at h
            injection h with h
            subst h
            have hFlt := getElem?_lt_of_eq_some hmlF
            have hxlt := getElem?_lt_of_eq_some hx
            have hobsx := hT.observers x
            rw [hitems] at hobsx
            simp only [hmem, if_false, md_listeners_of, hx] at hobsx
            constructor
            · have := hT.flat_P
              simp only [flat_of, List.getElem?_set] at this ⊢
              split_ifs with h1
              · subst h1
                simp only [hmlF] at this ⊢
                exact this
              · exact this
            · have := hT.flat_F
              simp only [flat_of, List.getElem?_set, hFlt, if_true, hmlF] at this ⊢
              exact this
            · rw [items_of_set_self hmlF]
              have := hT.nodup
              rw [hitems] at this
              simp [List.nodup_append, this, hmem]
            · intro y
              rw [items_of_set_self hmlF]
              have hy := hT.observers y
              rw [hitems] at hy
              simp only [md_listeners_of, List.getElem?_set] at hy ⊢
              by_cases hyx : x = y
              · subst hyx
                simp [hxlt, hobsx]
              · have hyx2 : ¬ y = x := fun e => hyx e.symm
                simp only [hyx, if_false, List.mem_append, List.mem_singleton, hyx2, or_false]
                exact hy

/-- The removal step of `remove_item` with the list argument `P` keeps
`Tracks P F` whenever the callee does. -/
theorem remove_item_body_tracks (P F : Nat)
    (r : Option Nat → Option Nat → State → Except Fault State)
    (hr : ∀ c s s1, r (some P) c s = .ok s1 → Tracks P F s → Tracks P F s1) :
    ∀ x s s1, remove_item_body r (some P) x s = .ok s1 → Tracks P F s → Tracks P F s1 := by
  intro x s s1 h hT
  unfold remove_item_body at h
  cases hmd : deref_md s x with
  | error e => simp [hmd] at h
  | ok md =>
    simp only [hmd] at h
    cases h1 : (match md.p_subitems with
        | some sub => r (some P) (some sub) s
        | none => Except.ok s) with
    | error e => simp [h1] at h
    | ok s2 =>
      simp only [h1] at h
      have hT2 : Tracks P F s2 := by
        cases hsub : md.p_subitems with
        | some sub => rw [hsub] at h1; exact hr _ _ _ h1 hT
        | none =>
          rw [hsub] at h1
          injection h1 with h1
          subst h1
          exact hT
      have hP := hT2.flat_P
      cases hml : s2.lists[P]? with
      | none => simp [flat_of, hml] at hP
      | some ml =>
        have hF : ml.p_flat_mlist = some F := by simpa [flat_of, hml] using hP
        cases hx2 : s2.mds[x]? with
        | none => simp [libvlc_event_detach_md, hx2] at h
        | some md2 =>
          cases hmlF : s2.lists[F]? with
          | none =>
            simp [libvlc_event_detach_md, hx2, deref_list, hml, hF,
              libvlc_media_list_index_of_item, hmlF] at h
          | some mlF =>
            have hitems : items_of s2 F = mlF.items := by simp [items_of, hmlF]
            by_cases hmem : x ∈ mlF.items
            · have hidx : mlF.items.indexOf x < mlF.items.length :=
                List.indexOf_lt_length.mpr hmem
              simp [libvlc_event_detach_md, hx2, deref_list, hml, hF,
                libvlc_media_list_index_of_item, hmlF, hmem, libvlc_media_list_remove_index,
                hidx] at h
              subst h
              have hFlt := getElem?_lt_of_eq_some hmlF
              have hxlt := getElem?_lt_of_eq_some hx2
              have hnd := hT2.nodup
              rw [hitems] at hnd
              have hobsx := hT2.observers x
              rw [hitems] at hobsx
              simp only [hmem, if_true, md_listeners_of, hx2] at hobsx
              constructor
              · have := hT2.flat_P
                simp only [flat_of, List.getElem?_set] at this ⊢
                split_ifs with h1
                · subst h1
                  simp only [hmlF] at this ⊢
                  exact this
                · exact this
              · have := hT2.flat_F
                simp only [flat_of, List.getElem?_set, hFlt, if_true, hmlF] at this ⊢
                exact this
              · rw [items_of_set_self hmlF]
                exact hnd.erase x
              · intro y
                rw [items_of_set_self hmlF]
                have hy := hT2.observers y
                rw [hitems] at hy
                simp only [md_listeners_of, List.getElem?_set] at hy ⊢
                by_cases hyx : x = y
                · subst hyx
                  simp [hxlt, hobsx, remove_first, hnd.mem_erase_iff, discovery_listener]
                · have hyx2 : ¬ y = x := fun e => hyx e.symm
                  simp only [hyx, if_false, hnd.mem_erase_iff, ne_eq, hyx2, not_false_eq_true,
                    true_and]
                  exact hy
            · simp [libvlc_event_detach_md, hx2, deref_list, hml, hF,
                libvlc_media_list_index_of_item, hmlF, hmem, libvlc_media_list_remove_index]
                at h

/-- `remove_media_list` with the list argument `P` keeps `Tracks P F`. -/
theorem remove_media_list_tracks (P F : Nat) :
    ∀ fuel c s s1, remove_media_list fuel (some P) c s = .ok s1 →
      Tracks P F s → Tracks P F s1 := by
  intro fuel
  induction fuel with
  | zero => intro c s s1 h; simp [remove_media_list] at h
  | succ fuel ih =>
    intro c s s1 h hT
    rw [remove_media_list] at h
    cases hc : libvlc_media_list_count s c with
    | error e => simp [hc] at h
    | ok count =>
      simp only [hc] at h
      cases hl : for_loop (fun i st =>
              match libvlc_media_list_item_at_index st c i with
              | .error e => .error e
              | .ok p_md => remove_item_body (remove_media_list fuel) (some P) p_md st)
            count 0 s with
      | error e => simp [hl] at h
      | ok s2 =>
        simp only [hl] at h
        have hloop : Tracks P F s → Tracks P F s2 := by
          refine for_loop_rel (fun a b => Tracks P F a → Tracks P F b) (fun _ h => h)
            (fun _ _ _ h1 h2 h => h2 (h1 h)) _ ?_ _ _ _ _ hl
          intro i st st1 hb
          cases hidx : libvlc_media_list_item_at_index st c i with
          | error e => simp [hidx] at hb
          | ok p_md =>
            simp only [hidx] at hb
            exact remove_item_body_tracks P F _ ih _ _ _ hb
        cases h1 : libvlc_event_detach_list s2 (some P) (added_listener (some P)) with
        | error e => simp [added_listener] at h1; simp [h1] at h
        | ok s3 =>
          have h1b := h1
          simp only [added_listener] at h1b
          simp only [h1b] at h
          obtain ⟨a1, a2, a3⟩ := detach_list_keeps h1
          obtain ⟨b1, b2, b3⟩ := detach_list_keeps h
          exact tracks_of_keeps (tracks_of_keeps (hloop hT) a1 a2 a3) b1 b2 b3

/-- C17: take a list `P` whose flat list `F` is empty and has no flat list of
its own (it is as `libvlc_media_list_new` made it), and items without
observers.  After every sequence of `add_item` and `remove_item` calls with
the list argument `P` that returns, each item carries exactly one
`subitems_created` observer, the one registered with `P`, when it is in the
flat list, and no observer when it is not. -/
theorem discovery_observers_track_membership (fuel : Nat) (P F : Nat)
    (calls : List ItemCall) (s s1 : State)
    (hP : flat_of s P = some F) (hFF : flat_of s F = none)
    (hempty : items_of s F = []) (hobs : ∀ x, md_listeners_of s x = [])
    (hrun : run_item_calls fuel (some P) calls s = .ok s1) :
    ∀ x, md_listeners_of s1 x
      = if x ∈ items_of s1 F then [discovery_listener (some P)] else [] := by
  have hT : Tracks P F s := by
    constructor
    · exact hP
    · exact hFF
    · rw [hempty]; exact List.nodup_nil
    · intro x; rw [hempty, hobs x]; simp
  have hall : ∀ (calls : List ItemCall) (s s1 : State), Tracks P F s →
      run_item_calls fuel (some P) calls s = .ok s1 → Tracks P F s1 := by
    intro calls
    induction calls with
    | nil =>
      intro s s1 hT h
      simp [run_item_calls] at h
      subst h
      exact hT
    | cons c calls ih =>
      intro s s1 hT h
      cases c with
      | add x =>
        rw [run_item_calls] at h
        cases ha : add_item fuel (some P) x s with
        | error e => simp [ha] at h
        | ok s2 =>
          simp only [ha] at h
          exact ih s2 s1 (add_item_tracks hT ha) h
      | remove x =>
        rw [run_item_calls] at h
        cases hr : remove_item fuel (some P) x s with
        | error e => simp [hr] at h
        | ok s2 =>
          simp only [hr] at h
          exact ih s2 s1
            (remove_item_body_tracks P F _ (remove_media_list_tracks P F fuel) _ _ _ hr hT) h
  exact (hall calls s s1 hT hrun).observers

/-- C17 on `empty_projection_A_B`: A is inserted, B is inserted, A is announced
again and then removed; the run returns, B is in the flat list with its one
observer and A is outside with none. -/
theorem observers_after_four_calls :
    run_item_calls 1 (some 0) [.add 0, .add 1, .add 0, .remove 0] empty_projection_A_B
      = .ok projection_after_four_calls ∧
    items_of projection_after_four_calls 1 = [1] ∧
    ∀ x, md_listeners_of projection_after_four_calls x
      = if x ∈ items_of projection_after_four_calls 1
        then [discovery_listener (some 0)] else [] :=
  ⟨by decide, by decide,
   discovery_observers_track_membership 1 0 1 [.add 0, .add 1, .add 0, .remove 0]
    empty_projection_A_B projection_after_four_calls rfl rfl rfl
    (by
      intro x
      match x with
      | 0 => rfl
      | 1 => rfl
      | n + 2 => rfl)
    (by decide)⟩

end FlatMediaList

namespace MLVideoModel

open vlc_ml_sorting_criteria_t Role

/-! ## C18: names and criteria -/

/-- C18: the names and criteria of `M_names_to_criteria` round-trip through
`nameToCriteria` and `criteriaToName`: each of the four criteria comes back
from its name, each of the four names comes back from its criterion, every
other name gives `VLC_ML_SORTING_DEFAULT`, and every other criterion gives the
empty name. -/
theorem sorting_names_round_trip :
    (∀ c ∈ [VLC_ML_SORTING_DEFAULT, VLC_ML_SORTING_ALPHA, VLC_ML_SORTING_DURATION,
            VLC_ML_SORTING_PLAYCOUNT], nameToCriteria (criteriaToName c) = c) ∧
    (∀ n ∈ ["id", "title", "duration", "playcount"],
      criteriaToName (nameToCriteria n) = n) ∧
    (∀ n, n ∉ ["id", "title", "duration", "playcount"] →
      nameToCriteria n = VLC_ML_SORTING_DEFAULT) ∧
    (∀ c, c ∉ [VLC_ML_SORTING_DEFAULT, VLC_ML_SORTING_ALPHA, VLC_ML_SORTING_DURATION,
               VLC_ML_SORTING_PLAYCOUNT] → criteriaToName c = "") := by
  refine ⟨by decide, by decide, ?_, ?_⟩
  · intro n hn
    simp only [List.mem_cons, List.mem_singleton, List.not_mem_nil, or_false, not_or] at hn
    obtain ⟨h1, h2, h3, h4⟩ := hn
    simp [nameToCriteria, hash_value, M_names_to_criteria, Ne.symm h1, Ne.symm h2,
      Ne.symm h3, Ne.symm h4]
  · intro c hc
    cases c <;> simp [criteriaToName, hash_key, M_names_to_criteria] at hc ⊢

/-- C18 at names and criteria outside the table: the name "thumbnail" gives the
default criterion, and a criterion the table does not hold gives the empty
name. -/
theorem thumbnail_sorts_by_default :
    nameToCriteria "thumbnail" = VLC_ML_SORTING_DEFAULT ∧
    criteriaToName (vlc_ml_sorting_criteria_t.other 3) = "" ∧
    nameToCriteria (criteriaToName VLC_ML_SORTING_DEFAULT) = VLC_ML_SORTING_DEFAULT ∧
    criteriaToName (nameToCriteria "id") = "id" :=
  ⟨sorting_names_round_trip.2.2.1 "thumbnail" (by decide),
   sorting_names_round_trip.2.2.2 (vlc_ml_sorting_criteria_t.other 3) (by decide),
   sorting_names_round_trip.1 VLC_ML_SORTING_DEFAULT (by decide),
   sorting_names_round_trip.2.1 "id" (by decide)⟩

/-! ## C19: roles and names -/

/-- C19: for every role with an entry in `roleNames`, `roleToCriteria` gives
the criterion `nameToCriteria` gives for the role's name; for every role
without an entry `roleToCriteria` gives `VLC_ML_SORTING_DEFAULT`. -/
theorem role_sorting_agrees_with_name_sorting (r : Role) :
    (∀ n, hash_find roleNames r = some n → roleToCriteria r = nameToCriteria n) ∧
    (hash_find roleNames r = none → roleToCriteria r = VLC_ML_SORTING_DEFAULT) := by
  cases r <;> refine ⟨fun n h => ?_, fun h => ?_⟩ <;>
    simp [hash_find, roleNames] at h <;>
    first
      | rfl
      | (subst h; decide)

/-- C19 at the title role and at a role outside the table. -/
theorem title_role_sorts_alphabetically :
    hash_find roleNames VIDEO_TITLE = some "title" ∧
    roleToCriteria VIDEO_TITLE = nameToCriteria "title" ∧
    hash_find roleNames (Role.other 7) = none ∧
    roleToCriteria (Role.other 7) = VLC_ML_SORTING_DEFAULT :=
  ⟨by decide,
   (role_sorting_agrees_with_name_sorting VIDEO_TITLE).1 "title" (by decide),
   by decide,
   (role_sorting_agrees_with_name_sorting (Role.other 7)).2 (by decide)⟩

end MLVideoModel
